import Mathlib

set_option maxRecDepth 4000

/-!
Verification development for the `mpcformat` package: the MPC 80-column
observation decoder (`ParseObs80`, `ParseObs80Date`, `ParseSat2`), the
arc splitter (`ArcSplitter` in its converged single-error-return variant),
and the tracklet clusterer (`FindTrackletsIndex`).

Modelling conventions:
* Lines and strings are `List Char`.
* Go `float64` values are modelled as exact rationals `ℚ`; the numeric
  literals appearing in the source (`.042`, `.125`, `.5`, `.25`,
  `1/149.59787e6`, band corrections) are all exactly representable.
* Go runtime panics (out-of-range slice or array index) are modelled by an
  `Option` layer: `none` is a panic.  `goSlice`/`goIndex` are Go's checked
  slice and byte access.
* The right ascension and declination are kept in their sexagesimal second
  values: the source multiplies them by the irrational constants
  pi/(12*3600) and pi/(180*3600) when storing radians.  Keeping the rational
  factor (and the sign flip for declination) makes the development
  computable; no claim mentions the radian values.
* `strconv.Atoi` / `strconv.ParseFloat` are modelled on the plain decimal
  numerals that fit the fixed-width fields: optional sign, digits, optional
  fraction.  Exponent, hexadecimal, inf/nan forms of `ParseFloat` and the
  overflow checks of `Atoi` do not occur in 17-or-fewer character numeric
  fields of this format and are outside the modelled fragment.
* `strings.TrimSpace` is modelled on the ASCII whitespace characters.
-/

namespace Mpcformat

/-- A line of input, as a list of characters. -/
abbrev Line := List Char

/-- ASCII fragment of the whitespace recognised by `strings.TrimSpace`. -/
def isGoSpace (c : Char) : Bool :=
  c == ' ' || c == '\t' || c == '\n' || c == '\x0b' || c == '\x0c' || c == '\r'

/-- `strings.TrimSpace`: drop whitespace from both ends. -/
def trimSpace (l : Line) : Line :=
  ((l.dropWhile isGoSpace).reverse.dropWhile isGoSpace).reverse

/-- Value of a digit string (no sign), used by the `Atoi` model. -/
def natOfDigits (l : Line) : Nat :=
  l.foldl (fun a c => a * 10 + (c.toNat - '0'.toNat)) 0

/-- `strconv.Atoi`: optional single sign, then one or more decimal digits;
anything else (including the empty string) is an error (`none`). -/
def atoi (l : Line) : Option Int :=
  match l with
  | '+' :: rest =>
      if rest.isEmpty || !rest.all Char.isDigit then none
      else some (natOfDigits rest : Int)
  | '-' :: rest =>
      if rest.isEmpty || !rest.all Char.isDigit then none
      else some (-(natOfDigits rest : Int))
  | _ =>
      if l.isEmpty || !l.all Char.isDigit then none
      else some (natOfDigits l : Int)

/-- Unsigned decimal mantissa of the `ParseFloat` model: digits, optionally
followed by a point and digits, with at least one digit in total. -/
def parseDecMantissa (l : Line) : Option ℚ :=
  let ip := l.takeWhile Char.isDigit
  let rest := l.dropWhile Char.isDigit
  match rest with
  | [] =>
      if ip.isEmpty then none else some (natOfDigits ip : ℚ)
  | '.' :: frac =>
      if (ip.isEmpty && frac.isEmpty) || !frac.all Char.isDigit then none
      else some ((natOfDigits ip : ℚ) + (natOfDigits frac : ℚ) / 10 ^ frac.length)
  | _ => none

/-- `strconv.ParseFloat` on the decimal fragment (see the module comment). -/
def parseFloatQ (l : Line) : Option ℚ :=
  match l with
  | '+' :: rest => parseDecMantissa rest
  | '-' :: rest => (parseDecMantissa rest).map (fun q => -q)
  | _ => parseDecMantissa l

/-- Go slice `s[a:b]` with its runtime bounds check; `none` is a panic. -/
def goSlice (l : Line) (a b : Nat) : Option Line :=
  if a ≤ b ∧ b ≤ l.length then some ((l.take b).drop a) else none

/-- Go byte access `s[i]` with its runtime bounds check; `none` is a panic. -/
def goIndex (l : Line) (i : Nat) : Option Char :=
  l.get? i

/-! ## Data model

The observation types of the external `observation` package, as used by this
package: a measurement record, site- and satellite-based observations, and
an arc.  Only the fields this package reads or writes are modelled. -/

/-- Parallax constants of one observatory site (longitude, rho cos phi,
rho sin phi), the value type of the parallax table. -/
structure ParallaxConst where
  lon : ℚ
  rhoCos : ℚ
  rhoSin : ℚ
deriving DecidableEq, Repr

/-- `observation.ParallaxMap`: a Go `map[string]*ParallaxConst`.  The outer
`Option` is presence of the key, the inner `Option` is nil-ness of the stored
pointer (a known site with no parallax data, e.g. a space telescope). -/
abbrev ParallaxMap := Line → Option (Option ParallaxConst)

/-- `coord.Cart`, a 3-vector. -/
structure Cart where
  x : ℚ
  y : ℚ
  z : ℚ
deriving DecidableEq, Repr

/-- `observation.VMeas`: one measurement.  `raSec` is the right ascension in
seconds of time ((h*60+m)*60+s); `decSec` the signed declination in seconds
of arc; the source stores these times pi/(12*3600) resp. pi/(180*3600)
radians (a fixed positive factor, kept out of the record — see the module
comment). -/
structure VMeas where
  mjd : ℚ
  raSec : ℚ
  decSec : ℚ
  vmag : ℚ
  qual : Line
deriving DecidableEq, Repr

/-- `observation.SatObs`: a satellite-based observation. -/
structure SatObs where
  sat : Line
  meas : VMeas
  offset : Cart
deriving DecidableEq, Repr

/-- `observation.SiteObs`: a fixed-site observation (non-nil parallax). -/
structure SiteObs where
  par : ParallaxConst
  meas : VMeas
deriving DecidableEq, Repr

/-- `observation.VObs`: the observation variant. -/
inductive VObs
  | sat (s : SatObs)
  | site (s : SiteObs)
deriving DecidableEq, Repr

/-- `observation.Arc`: a designation plus its observations. -/
structure Arc where
  desig : Line
  obs : List VObs
deriving DecidableEq, Repr

/-! ## The date parser `ParseObs80Date` -/

/-- The 13-entry month-offset table `flookup` of obs80.go. -/
def flookup : List Int := [0, 306, 337, 0, 31, 61, 92, 122, 153, 184, 214, 245, 275]

/-- Go array access `flookup[m]` with its runtime bounds check (`none` is a
panic: the source indexes the 13-entry array with the unvalidated month). -/
def flookupAt (m : Int) : Option Int :=
  if 0 ≤ m ∧ m < 13 then some (flookup.getD m.toNat 0) else none

/-- `ParseObs80Date`.  Result `some (mjd, ok)` mirrors the Go return pair;
`none` models the panic on a month outside the `flookup` bounds.  All slice
accesses are in bounds once the length-10 guard has passed.  Note the source
computes a blank-stripped copy `df` of the month field but then parses
`d[5:7]` directly; the dead `df` is omitted here. -/
def parseObs80Date (d : Line) : Option (ℚ × Bool) :=
  if d.length < 10 then some (0, false) else
  match atoi (d.take 4) with
  | none => some (0, false)
  | some year =>
  match atoi ((d.drop 5).take 2) with
  | none => some (0, false)
  | some month =>
  match parseFloatQ (trimSpace (d.drop 8)) with
  | none => some (0, false)
  | some day =>
  let z : Int := year + Int.tdiv (month - 14) 12
  match flookupAt month with
  | none => none
  | some f =>
  let m : Int := f + 365 * z + Int.tdiv z 4 - Int.tdiv z 100 + Int.tdiv z 400 - 678882
  some ((m : ℚ) + day, true)

/-! ## The line decoder `ParseObs80` -/

/-- The error cases of `ParseObs80` (Go formats these as message strings). -/
inductive Obs80Err
  | badLength
  | badDate
  | badRA
  | badDec
  | badMag
  | unknownObscode
deriving DecidableEq, Repr

/-- `ParseObs80`.  The result mirrors the Go named returns
`(desig, o, err)`: the designation parsed so far together with either the
observation or the error; the outer `none` models a panic (reachable through
`ParseObs80Date`'s unchecked month index).  After the 80-character guard all
fixed-column accesses are in bounds, so plain `take`/`drop`/`getD` are used. -/
def parseObs80 (line80 : Line) (ocm : ParallaxMap) :
    Option (Line × Except Obs80Err VObs) :=
  if line80.length ≠ 80 then some ([], .error .badLength) else
  let desig := trimSpace (line80.take 12)
  let d := (line80.take 32).drop 15
  match parseObs80Date d with
  | none => none
  | some (_, false) => some (desig, .error .badDate)
  | some (mjd, true) =>
  match atoi (trimSpace ((line80.take 34).drop 32)),
        atoi (trimSpace ((line80.take 37).drop 35)),
        parseFloatQ (trimSpace ((line80.take 44).drop 38)) with
  | some rah, some ram, some ras =>
    let decg := line80.getD 44 ' '
    match atoi (trimSpace ((line80.take 47).drop 45)),
          atoi (trimSpace ((line80.take 50).drop 48)),
          parseFloatQ (trimSpace ((line80.take 56).drop 51)) with
    | some decd, some decm, some decs =>
      let ts := trimSpace ((line80.take 70).drop 65)
      let magRes : Except Obs80Err ℚ :=
        if ts.isEmpty then .ok 0
        else match parseFloatQ ts with
        | none => .error .badMag
        | some mag =>
          match line80.getD 70 ' ' with
          | 'V' => .ok mag
          | 'B' => .ok (mag - 8/10)
          | _ => .ok (mag + 4/10)
      match magRes with
      | .error e => some (desig, .error e)
      | .ok mag =>
      let c := (line80.take 80).drop 77
      match ocm c with
      | none => some ([], .error .unknownObscode)
      | some par =>
        let decBase : ℚ := ((decd * 60 + decm : Int) : ℚ) * 60 + decs
        let meas : VMeas :=
          { mjd := mjd
            raSec := ((rah * 60 + ram : Int) : ℚ) * 60 + ras
            decSec := if decg = '-' then -decBase else decBase
            vmag := mag
            qual := c }
        let o : VObs :=
          match par with
          | none => .sat ⟨c, meas, ⟨0, 0, 0⟩⟩
          | some p =>
            if line80.getD 14 ' ' = 'S' then .sat ⟨c, meas, ⟨0, 0, 0⟩⟩
            else .site ⟨p, meas⟩
        some (desig, .ok o)
    | _, _, _ => some (desig, .error .badDec)
  | _, _, _ => some (desig, .error .badRA)

/-! ## The satellite second-line parser `ParseSat2` -/

/-- The error cases of `ParseSat2` (Go formats these as message strings). -/
inductive Sat2Err
  | desigMismatch
  | badDate2
  | dateMismatch
  | obscodeMismatch
  | badOffsetX
  | badOffsetY
  | badOffsetZ
deriving DecidableEq, Repr

/-- `parseMpcOffset`: a sign byte followed by a magnitude.  The argument is
always a 12-character slice of an at-least-70-character line; the empty case
is unreachable from `parseSat2` (Go would panic on `off[0]`). -/
def parseMpcOffset (off : Line) : Option ℚ :=
  match off with
  | [] => none
  | c :: rest =>
    match parseFloatQ (trimSpace rest) with
    | none => none
    | some v =>
      if c = '-' then some (-v)
      else if c = '+' ∨ c = ' ' then some v
      else none

/-- `ParseSat2`.  Takes the second line, the first line's designation and the
first line's observation; returns the updated observation (the Go code
mutates `s1` through the pointer).  `ParseSat2` performs no length check, so
every fixed-column access uses the checked `goSlice`/`goIndex`; the outer
`none` models an out-of-range panic. -/
def parseSat2 (line80 des1 : Line) (s1 : SatObs) : Option (Except Sat2Err SatObs) :=
  match goSlice line80 0 12 with
  | none => none
  | some d12 =>
  if trimSpace d12 ≠ des1 then some (.error .desigMismatch) else
  match goSlice line80 15 32 with
  | none => none
  | some d =>
  match parseObs80Date d with
  | none => none
  | some (_, false) => some (.error .badDate2)
  | some (date2, true) =>
  if date2 ≠ s1.meas.mjd then some (.error .dateMismatch) else
  match goSlice line80 77 80 with
  | none => none
  | some code =>
  if code ≠ s1.sat then some (.error .obscodeMismatch) else
  match goSlice line80 34 46 with
  | none => none
  | some offx =>
  match parseMpcOffset offx with
  | none => some (.error .badOffsetX)
  | some x =>
  match goSlice line80 46 58 with
  | none => none
  | some offy =>
  match parseMpcOffset offy with
  | none => some (.error .badOffsetY)
  | some y =>
  match goSlice line80 58 70 with
  | none => none
  | some offz =>
  match parseMpcOffset offz with
  | none => some (.error .badOffsetZ)
  | some z =>
  match goIndex line80 32 with
  | none => none
  | some u =>
  -- scale factor = 1 / 1 AU in km (the source's 1 / 149.59787e6)
  let sf : ℚ := 1 / 149597870
  if u = '1' then
    some (.ok { s1 with offset := ⟨x * sf, y * sf, z * sf⟩ })
  else
    some (.ok { s1 with offset := ⟨x, y, z⟩ })

/-! ## The arc splitter

`ArcSplitter` (arcsplit.go, the converged `func() (*observation.Arc, error)`
variant) returns a closure over a scanner and four captured variables: the
arc under construction `a` (its `Desig` persists between calls; its `Obs` is
reset at the start of each call), and the carried `desig`, `o`, `err`.  The
closure is modelled as a step function on an explicit state record.

The underlying source is modelled as the list of remaining lines: a scanner
over an in-memory buffer never reports a read error, and no claim concerns
the fatal read-error path (`s.Err() != nil`), so that path is not modelled.
Once the list is empty, `s.Scan()` is false and `s.Text()` is `""` on every
subsequent call, which is how the Go scanner behaves after exhaustion. -/

/-- The kinds of error the splitter wraps in `ArcError`. -/
inductive ArcErrKind
  | lineLength (n : Nat)
  | satWithoutLine1
  | obs80 (e : Obs80Err)
deriving DecidableEq, Repr

/-- The `error` values the split function can return: `io.EOF`, an
`ArcError` (non-fatal parse error), or the unwrapped error of `ParseSat2`. -/
inductive GoError
  | eof
  | arcError (e : ArcErrKind)
  | sat2Error (e : Sat2Err)
deriving DecidableEq, Repr

/-- The splitter's captured state between calls: the remaining input lines,
`a.Desig` of the persistent arc variable, and the carried `desig`, `o`,
`err` of the closure. -/
structure ASt where
  lines : List Line
  aDesig : Line
  desig : Line
  o : Option VObs
  err : Option GoError
deriving DecidableEq, Repr

/-- One call's returned pair `(*observation.Arc, error)`. -/
abbrev StepRes := Option Arc × Option GoError

/-- The code after the `arc:` loop (reached by `break arc` on a parse
error): discard `o`, and either flush the nonempty partial arc now and
postpone the error to the next call, or return the error at once (with the
`&a` pointer, whose `Obs` is empty and whose `Desig` is stale). -/
def errorExit (rest : List Line) (a : Arc) (desig : Line) (e : GoError) :
    ASt × StepRes :=
  if a.obs.isEmpty then
    (⟨rest, a.desig, desig, none, none⟩, (some a, some e))
  else
    (⟨rest, a.desig, desig, none, some e⟩, (some a, none))

/-- The `arc:` loop of the split closure.  Arguments mirror the captured
variables: remaining lines, the arc under construction, and the carried
`desig` and `o`.  `none` models a panic escaping from `ParseObs80` or
`ParseSat2`.  On the satellite-continuation branch the Go code mutates the
last observation through the pointer held in both `o` and `a.Obs`; here both
copies are replaced. -/
def splitLoop (pm : ParallaxMap) :
    List Line → Arc → Line → Option VObs → Option (ASt × StepRes)
  | [], a, desig, o =>
    -- scanner exhausted: s.Scan() false, s.Err() nil, s.Text() = ""
    if a.obs.isEmpty then
      some (⟨[], a.desig, desig, o, none⟩, (none, some .eof))
    else
      some (⟨[], a.desig, desig, none, some .eof⟩, (some a, none))
  | line :: rest, a, desig, o =>
    if line.length = 80 then
      if line.getD 14 ' ' = 's' then
        match o with
        | some (.sat s) =>
          match parseSat2 line desig s with
          | none => none
          | some (.error e) => some (errorExit rest a desig (.sat2Error e))
          | some (.ok s2) =>
            splitLoop pm rest ⟨a.desig, a.obs.dropLast ++ [.sat s2]⟩ desig (some (.sat s2))
        | _ => some (errorExit rest a desig (.arcError .satWithoutLine1))
      else
        match parseObs80 line pm with
        | none => none
        | some (d2, .error e) => some (errorExit rest a d2 (.arcError (.obs80 e)))
        | some (d2, .ok o2) =>
          if a.obs.isEmpty then
            splitLoop pm rest ⟨d2, [o2]⟩ d2 (some o2)
          else if d2 = a.desig then
            splitLoop pm rest ⟨a.desig, a.obs ++ [o2]⟩ d2 (some o2)
          else
            some (⟨rest, a.desig, d2, some o2, none⟩, (some a, none))
    else
      some (errorExit rest a desig (.arcError (.lineLength line.length)))

/-- One call of the split closure: report a postponed error, else reset
`a.Obs`, seed the arc with the carried observation, and run the loop. -/
def arcSplitterStep (pm : ParallaxMap) (st : ASt) : Option (ASt × StepRes) :=
  match st.err with
  | some e => some ({ st with err := none }, (none, some e))
  | none =>
    match st.o with
    | some o => splitLoop pm st.lines ⟨st.desig, [o]⟩ st.desig (some o)
    | none => splitLoop pm st.lines ⟨st.aDesig, []⟩ st.desig none

/-- The state captured when `ArcSplitter` builds the closure: the whole
input, plus Go zero values for the captured variables. -/
def initState (lines : List Line) : ASt := ⟨lines, [], [], none, none⟩

/-- The result pair with the designation of an empty returned arc erased:
the `&a` pointer returned together with an immediate parse error carries a
stale `Desig` and an empty `Obs`, and callers can learn nothing from the
stale field.  Used to compare splitter behaviours. -/
def normRes (r : StepRes) : StepRes :=
  (r.1.map fun a => if a.obs.isEmpty then ⟨[], []⟩ else a, r.2)

/-- The result pair of the n-th call after the given state (0-based). -/
def iterRes (pm : ParallaxMap) : Nat → ASt → Option StepRes
  | 0, st => (arcSplitterStep pm st).map fun p => p.2
  | n + 1, st => (arcSplitterStep pm st).bind fun p => iterRes pm n p.1

/-- The normalised results of the first n calls from the given state. -/
def traceRes (pm : ParallaxMap) : Nat → ASt → Option (List StepRes)
  | 0, _ => some []
  | n + 1, st =>
    (arcSplitterStep pm st).bind fun p =>
      (traceRes pm n p.1).map (normRes p.2 :: ·)

/-- Two splitter states that behave identically from now on: equal states,
or states over the same remaining lines with nothing carried (the stale
`aDesig` and `desig` fields are observably irrelevant once `o` and `err`
are clear). -/
def StRel (s1 s2 : ASt) : Prop :=
  s1 = s2 ∨ (s1.lines = s2.lines ∧ s1.o = none ∧ s2.o = none ∧
             s1.err = none ∧ s2.err = none)

/-- Relation on call outcomes: both panic, or the normalised results agree
and the successor states are `StRel`-related. -/
def OutRel : Option (ASt × StepRes) → Option (ASt × StepRes) → Prop
  | none, none => True
  | some (s1, r1), some (s2, r2) => normRes r1 = normRes r2 ∧ StRel s1 s2
  | _, _ => False

/-! ## The tracklet clusterer `FindTrackletsIndex`

The source's `td` record is (mjd, index) and `tk` is (indices, mean).  The
index payload is generalised to a type parameter: `reduce` bases every
decision on the `mjd` fields only, and the generalisation lets that be
stated once (`reduce_map`) and reused.  The source's types are the `Nat`
instances.

The two `sort.Sort` calls are modelled as Mathlib's stable insertion sort
on the non-strict key order.  Go's `sort.Sort` guarantees only *some*
sorted order; on slices shorter than 12 elements it runs insertion sort
with a strict-less comparator, which is stable, and a stable sorted
permutation is unique, so the model agrees with Go exactly there.  All
theorems below either carry distinct-key hypotheses (under which every
sorted permutation is the same) or evaluate concrete short inputs.

Go map iteration (`for _, t1 := range m`) has unspecified, randomised
order; it is modelled as first-occurrence order of the observer keys.  Any
behaviour the claims attribute to the code must hold under every iteration
order for the code to satisfy it, so a counterexample in this refinement
refutes a claim about the code. -/

/-- The `td` record: a time and a payload (the source's observation index). -/
structure TD (α : Type) where
  mjd : ℚ
  pay : α
deriving DecidableEq, Repr

/-- The `tk` record: payloads of the tracklet members plus the mean time. -/
structure TK (α : Type) where
  index : List α
  mean : ℚ
deriving DecidableEq, Repr

/-- `appendTl`: record the members' payloads and the arithmetic mean time. -/
def mkTk {α : Type} (set : List (TD α)) : TK α :=
  ⟨set.map (·.pay), (set.map (·.mjd)).sum / set.length⟩

/-- The scan for the longest gap: Go's loop state is (next, s, split,
longest); the first maximal gap wins because only `g > longest` updates. -/
def lgsAux : ℚ → List ℚ → Nat → Nat → ℚ → Nat
  | _, [], _, split, _ => split
  | next, m :: rest, s, split, longest =>
    if m - next > longest then lgsAux m rest (s + 1) s (m - next)
    else lgsAux m rest (s + 1) split longest

/-- The split position at the largest gap of a time list (`split` in the
source, initialised to 1).  Lists shorter than 2 are unreachable: `reduce`
only splits sets of length at least 3. -/
def largestGapSplit (ms : List ℚ) : Nat :=
  match ms with
  | m0 :: m1 :: rest => lgsAux m1 rest 2 1 (m1 - m0)
  | _ => 1

theorem lgsAux_bounds (l : List ℚ) (next : ℚ) (s split : Nat) (longest : ℚ)
    (h1 : 1 ≤ split) (h2 : split < s) :
    1 ≤ lgsAux next l s split longest ∧ lgsAux next l s split longest < s + l.length := by
  induction l generalizing next s split longest with
  | nil => simpa [lgsAux] using ⟨h1, h2⟩
  | cons m rest ih =>
    simp only [lgsAux, List.length_cons]
    by_cases hg : m - next > longest
    · simp only [if_pos hg]
      have := ih m (s + 1) s (m - next) (le_trans h1 (le_of_lt h2)) (Nat.lt_succ_self s)
      exact ⟨this.1, by omega⟩
    · simp only [if_neg hg]
      have := ih m (s + 1) split (longest) h1 (Nat.lt_succ_of_lt h2)
      exact ⟨this.1, by omega⟩

theorem largestGapSplit_bounds (ms : List ℚ) (h : 2 ≤ ms.length) :
    1 ≤ largestGapSplit ms ∧ largestGapSplit ms < ms.length := by
  match ms, h with
  | m0 :: m1 :: rest, _ =>
    have := lgsAux_bounds rest m1 2 1 (m1 - m0) (le_refl 1) (by omega)
    exact ⟨this.1, by simp only [largestGapSplit, List.length_cons]; omega⟩

/-- `reduce`: recursively split one observer's time-sorted observation list
into tracklets, in the source's rule order.  The empty case is unreachable
(callers pass nonempty groups; Go would panic on `set[len(set)-1]`). -/
def reduce {α : Type} : List (TD α) → List (TK α)
  | [] => []
  | x :: xs =>
    let set := x :: xs
    let d := (set.getLastD x).mjd - x.mjd
    -- all obs within 1 hr (about .042 day) is a tracklet
    if h042 : d < 42/1000 then [mkTk set]
    -- 2-5 obs within 3 hrs make a reasonable tracklet
    else if set.length ≤ 5 ∧ d < 125/1000 then [mkTk set]
    -- only 2 obs, handle now: both must be same night
    else if hl2 : set.length = 2 then
      if d < 1/2 then [mkTk set] else [mkTk (set.take 1), mkTk (set.drop 1)]
    else
      -- split at longest gap
      let split := largestGapSplit (set.map (·.mjd))
      let lf := set.take split
      let rt := set.drop split
      -- recurse immediately if each half has >= 3 positions
      if 3 ≤ lf.length ∧ 3 ≤ rt.length then reduce lf ++ reduce rt
      -- if two split off from the same night, handle right away
      else if lf.length = 2 ∧ 2 ≤ rt.length ∧ (lf.getLastD x).mjd - (lf.headD x).mjd < 1/2 then
        mkTk lf :: reduce rt
      else if rt.length = 2 ∧ 2 ≤ lf.length ∧ (rt.getLastD x).mjd - (rt.headD x).mjd < 1/2 then
        reduce lf ++ [mkTk rt]
      -- if whole set has 3 obs in same night, take it as a tracklet
      else if set.length = 3 ∧ d < 1/2 then [mkTk set]
      -- if whole set within 6 hrs, take it regardless of number of obs
      else if d < 1/4 then [mkTk set]
      -- otherwise recurse
      else reduce lf ++ reduce rt
termination_by l => l.length
decreasing_by
  all_goals
    have hlen2 : 2 ≤ (x :: xs).length := by
      rcases xs with _ | ⟨y, ys⟩
      · refine absurd ?_ h042
        show (List.getLastD [x] x).mjd - x.mjd < 42/1000
        norm_num [List.getLastD]
      · simp only [List.length_cons]; omega
    have hb := largestGapSplit_bounds ((x :: xs).map (·.mjd)) (by simpa using hlen2)
    simp only [List.length_map] at hb
    simp only [List.length_take, List.length_drop, List.length_cons] at *
    omega

/-- An entity of the `TrackletSplitter` interface: a time (`MJD()`) and an
observer identification string (`Observer()`). -/
structure Ent where
  mjd : ℚ
  obs : Line
deriving DecidableEq, Repr

/-- `m[o] = append(m[o], td{d, i})` on an association list: append the entry
to the key's group, or add a new key at the end (first-occurrence order). -/
def upsert (k : Line) (v : TD Nat) :
    List (Line × List (TD Nat)) → List (Line × List (TD Nat))
  | [] => [(k, [v])]
  | (k2, vs) :: rest =>
    if k2 = k then (k2, vs ++ [v]) :: rest else (k2, vs) :: upsert k v rest

/-- The grouping loop of `FindTrackletsIndex`: partition the indexed
entities by observer (Go map iteration order modelled as first-occurrence
order of the keys — see the section comment). -/
def groupObs (ts : List Ent) : List (Line × List (TD Nat)) :=
  ts.enum.foldl (fun m p => upsert p.2.obs ⟨p.2.mjd, p.1⟩ m) []

/-- `sort.Sort(t1)`: sort one group ascending by time (see the section
comment on modelling `sort.Sort` by the stable insertion sort). -/
def sortByMjd {α : Type} (l : List (TD α)) : List (TD α) :=
  l.insertionSort (fun a b => a.mjd ≤ b.mjd)

/-- `sort.Sort(tl)`: sort the tracklets ascending by mean time. -/
def sortByMean {α : Type} (l : List (TK α)) : List (TK α) :=
  l.insertionSort (fun a b => a.mean ≤ b.mean)

/-- The tracklet list `tl` before the final sort: for each observer group in
iteration order, sort by time and reduce, appending to `tl`. -/
def preTl (ts : List Ent) : List (TK Nat) :=
  (groupObs ts).foldl (fun tl g => tl ++ reduce (sortByMjd g.2)) []

/-- `FindTrackletsIndex` with the mean times still attached (the source
drops them when building the final `[][]int`). -/
def fullFTI (ts : List Ent) : List (TK Nat) :=
  sortByMean (preTl ts)

/-- `FindTrackletsIndex`: the member-index lists of the sorted tracklets. -/
def findTrackletsIndex (ts : List Ent) : List (List Nat) :=
  (fullFTI ts).map (·.index)

/-- A tracklet dereferenced through the entity list it indexes: its mean
time and the entities its members point at.  Used to compare clusterer
outputs across reorderings of the input. -/
def derefTk (ts : List Ent) (t : TK Nat) : ℚ × List (Option Ent) :=
  (t.mean, t.index.map ts.get?)

/-- All tracklets of an input, dereferenced. -/
def derefFTI (ts : List Ent) : List (ℚ × List (Option Ent)) :=
  (fullFTI ts).map (derefTk ts)

/-- Relabel the payload of a `td`. -/
def tdMap {α β : Type} (f : α → β) (t : TD α) : TD β := ⟨t.mjd, f t.pay⟩

/-- Relabel the payloads of a `tk`. -/
def tkMap {α β : Type} (f : α → β) (k : TK α) : TK β := ⟨k.index.map f, k.mean⟩

/-- The group one observer's entries form in the map `m`: the indexed
entities with that observer, in input order. -/
def groupOf (ts : List Ent) (o : Line) : List (TD Nat) :=
  (ts.enum.filter (fun p => p.2.obs = o)).map (fun p => ⟨p.2.mjd, p.1⟩)

/-- Association-list lookup with the empty group as default. -/
def alookup (m : List (Line × List (TD Nat))) (k : Line) : List (TD Nat) :=
  match m with
  | [] => []
  | (k2, vs) :: r => if k2 = k then vs else alookup r k

/-- The positional relabelling determined by two payload lists: the payload
at a position of the first list is sent to the payload at the same position
of the second. -/
def relab (ps qs : List Nat) : Nat → Nat := fun i =>
  match (ps.zip qs).find? (fun p => p.1 == i) with
  | some p => p.2
  | none => i

/-! ## Specification-side definitions

Definitions written from the words of the specification claims, for
comparison against the source translations above. -/

/-- The date formula exactly as the spec states it: `z = Y + floor((M-14)/12)`
and `MJD = table[M] + 365z + floor(z/4) - floor(z/100) + floor(z/400) -
678882 + D`, where floor is the mathematical floor on negative quotients too
(`Int.fdiv`).  Written from the claim's words. -/
def specFloorMJD (Y M : Int) (D : ℚ) : ℚ :=
  let z : Int := Y + Int.fdiv (M - 14) 12
  ((flookup.getD M.toNat 0 + 365 * z +
    Int.fdiv z 4 - Int.fdiv z 100 + Int.fdiv z 400 - 678882 : Int) : ℚ) + D

/-- The date formula with Go's truncating integer division (`Int.tdiv`,
rounding toward zero), the corrected reading of the spec's formula. -/
def specTruncMJD (Y M : Int) (D : ℚ) : ℚ :=
  let z : Int := Y + Int.tdiv (M - 14) 12
  ((flookup.getD M.toNat 0 + 365 * z +
    Int.tdiv z 4 - Int.tdiv z 100 + Int.tdiv z 400 - 678882 : Int) : ℚ) + D

/-- The offset scale factor named by the spec, "Earth-radius/AU".  The spec
gives no number; this uses the IAU nominal equatorial radius 6378.137 km
over 1 AU = 149597870 km (any Earth radius between the polar and equatorial
values refutes the claim equally, being about 6.4e3 km where the code's
factor corresponds to 1 km). -/
def earthRadiusOverAU : ℚ := (6378137 / 1000) / 149597870

/-! ## Concrete fixtures

Test data taken from the repository's own test files (arc_test.go,
obs80_test.go), used by witnesses and counterexamples. -/

/-- A parallax map with the sites of the test data: two fixed sites and the
Hubble Space Telescope (known code, nil parallax). -/
def pmTest : ParallaxMap := fun c =>
  if c = "291".toList then some (some ⟨1, 2, 3⟩)
  else if c = "704".toList then some (some ⟨4, 5, 6⟩)
  else if c = "250".toList then some none
  else none

/-- Test line: one observation of NE00030 (arc_test.go). -/
def lineO1 : Line :=
  "     NE00030  C2004 09 16.15206 16 13 11.57 +20 52 23.7          21.1 Vd     291".toList

/-- Test lines: two observations of NE00199 (arc_test.go). -/
def lineO2a : Line :=
  "     NE00199  C2007 02 09.24234 06 08 06.06 +43 13 26.2          20.1  c     704".toList

/-- Second observation of NE00199. -/
def lineO2b : Line :=
  "     NE00199  C2007 02 09.25415 06 08 05.51 +43 13 01.7          20.1  c     704".toList

/-- Test line: first line of the two-line satellite observation 03620
(obs80_test.go). -/
def lineSat1 : Line :=
  "03620         S1996 08 30.51477 21 07 31.918-05 22 00.82                27764250".toList

/-- Test line: the satellite continuation line of 03620. -/
def lineSat2 : Line :=
  "03620         s1996 08 30.51477 1 -  344.3553 - 6919.1239 +  872.2948   27764250".toList

/-- `lineO1` with its month field overwritten to 99: an 80-character line
whose decoding panics in `flookup[month]`. -/
def lineMonth99 : Line :=
  "     NE00030  C2004 99 16.15206 16 13 11.57 +20 52 23.7          21.1 Vd     291".toList

/-- The satellite observation decoded from `lineSat1` (before the merge). -/
def satObs1 : SatObs :=
  ⟨"250".toList,
   ⟨5032551477/100000, 38025959/500, -966041/50, 0, "250".toList⟩,
   ⟨0, 0, 0⟩⟩

/-- `satObs1` after the continuation line `lineSat2` is merged (offsets in
km scaled by 1/149597870 to AU). -/
def satObs2Merged : SatObs :=
  { satObs1 with offset := ⟨-3443553/1495978700000, -69191239/1495978700000,
                            8722948/1495978700000⟩ }

/-- A placeholder satellite observation for short-line tests. -/
def dummySat : SatObs := ⟨"250".toList, ⟨0, 0, 0, 0, []⟩, ⟨0, 0, 0⟩⟩

/-- A placeholder observation value. -/
def dummyObs : VObs := .sat dummySat

/-- The observation decoded from `lineO1`. -/
def obsO1 : VObs :=
  .site ⟨⟨1, 2, 3⟩,
    ⟨2663207603/50000, 5839157/100, 751437/10, 211/10, "291".toList⟩⟩

/-- The observation decoded from `lineO2a`. -/
def obsO2a : VObs :=
  .site ⟨⟨4, 5, 6⟩,
    ⟨2707012117/50000, 1104303/50, 778031/5, 41/2, "704".toList⟩⟩

/-- The arc of the single observation of NE00030. -/
def arcO1 : Arc := ⟨"NE00030".toList, [obsO1]⟩

/-- The splitter state after yielding `arcO1` from the two-line stream
`[lineO1, lineO2a]`: the NE00199 observation is carried to the next call. -/
def stAfterO1 : ASt :=
  ⟨[], "NE00030".toList, "NE00199".toList, some obsO2a, none⟩

/-- Two entities at the same time from different observers, for the
order-sensitivity counterexample. -/
def entA : Ent := ⟨5, ['A']⟩

/-- The second tied-time entity. -/
def entB : Ent := ⟨5, ['B']⟩

end Mpcformat

deriving instance DecidableEq for Except

namespace Mpcformat

/-! ## Claim theorems -/

/-! ### Arc splitter lemmas and claims C1-C3 -/

/-- A nonempty list is not `isEmpty`. -/
theorem isEmpty_false_of_ne_nil {α : Type} {l : List α} (h : l ≠ []) :
    l.isEmpty = false := by
  cases l with
  | nil => exact absurd rfl h
  | cons a t => rfl

/-- While the arc under construction is nonempty, the split loop never
returns an error in the error position of the pair: a parse failure flushes
the partial arc and postpones the error. -/
theorem splitLoop_nonempty_noerr (pm : ParallaxMap) :
    ∀ (lines : List Line) (a : Arc) (desig : Line) (o : Option VObs)
      (st2 : ASt) (res : Option Arc) (e : Option GoError),
      a.obs ≠ [] →
      splitLoop pm lines a desig o = some (st2, (res, e)) →
      e = none := by
  intro lines
  induction lines with
  | nil =>
    intro a desig o st2 res e hne h
    simp only [splitLoop, isEmpty_false_of_ne_nil hne, Bool.false_eq_true,
      if_false, Option.some.injEq, Prod.mk.injEq] at h
    exact h.2.2.symm
  | cons line rest ih =>
    intro a desig o st2 res e hne h
    simp only [splitLoop] at h
    split at h
    · split at h
      · split at h
        · split at h
          · simp at h
          · simp only [errorExit, isEmpty_false_of_ne_nil hne, Bool.false_eq_true,
              if_false, Option.some.injEq, Prod.mk.injEq] at h
            exact h.2.2.symm
          · exact ih _ _ _ _ _ _ (by simp) h
        · simp only [errorExit, isEmpty_false_of_ne_nil hne, Bool.false_eq_true,
            if_false, Option.some.injEq, Prod.mk.injEq] at h
          exact h.2.2.symm
      · split at h
        · simp at h
        · simp only [errorExit, isEmpty_false_of_ne_nil hne, Bool.false_eq_true,
            if_false, Option.some.injEq, Prod.mk.injEq] at h
          exact h.2.2.symm
        · split at h
          · exact ih _ _ _ _ _ _ (by simp) h
          · split at h
            · exact ih _ _ _ _ _ _ (by simp [hne]) h
            · simp only [Option.some.injEq, Prod.mk.injEq] at h
              exact h.2.2.symm
    · simp only [errorExit, isEmpty_false_of_ne_nil hne, Bool.false_eq_true,
        if_false, Option.some.injEq, Prod.mk.injEq] at h
      exact h.2.2.symm

/-- With lines remaining, the split loop starting from an empty arc never
returns `io.EOF`. -/
theorem splitLoop_empty_cons_no_eof (pm : ParallaxMap) (line : Line)
    (rest : List Line) (d0 desig : Line) (st2 : ASt) (res : Option Arc)
    (e : Option GoError)
    (h : splitLoop pm (line :: rest) ⟨d0, []⟩ desig none = some (st2, (res, e))) :
    e ≠ some .eof := by
  simp only [splitLoop] at h
  split at h
  · split at h
    · -- 's' with no carried satellite: errorExit on the empty arc
      simp only [errorExit, List.isEmpty_nil, if_pos rfl, Option.some.injEq,
        Prod.mk.injEq] at h
      rcases h with ⟨-, -, rfl⟩
      simp
    · split at h
      · simp at h
      · simp only [errorExit, List.isEmpty_nil, if_pos rfl, Option.some.injEq,
          Prod.mk.injEq] at h
        rcases h with ⟨-, -, rfl⟩
        simp
      · rw [if_pos (by simp : (([] : List VObs).isEmpty) = true)] at h
        have := splitLoop_nonempty_noerr pm rest _ _ _ _ _ _ (by simp) h
        simp [this]
  · simp only [errorExit, List.isEmpty_nil, if_pos rfl, Option.some.injEq,
      Prod.mk.injEq] at h
    rcases h with ⟨-, -, rfl⟩
    simp

/-- A call that returns `io.EOF` from an error-free state has exhausted the
input, returns no arc, and leaves the terminal state behind. -/
theorem step_eof_shape (pm : ParallaxMap) (st st2 : ASt) (res : Option Arc)
    (herr : st.err = none)
    (h : arcSplitterStep pm st = some (st2, (res, some .eof))) :
    st.lines = [] ∧ st2 = ⟨[], st.aDesig, st.desig, none, none⟩ ∧ res = none := by
  simp only [arcSplitterStep, herr] at h
  match ho : st.o, h with
  | some o, h =>
    have := splitLoop_nonempty_noerr pm st.lines _ _ _ _ _ _ (by simp) h
    simp at this
  | none, h =>
    match hl : st.lines, h with
    | [], h =>
      simp only [splitLoop] at h
      rw [if_pos (by simp : (([] : List VObs).isEmpty) = true)] at h
      simp only [Option.some.injEq, Prod.mk.injEq] at h
      exact ⟨rfl, h.1.symm, h.2.1.symm⟩
    | line :: rest, h =>
      exact absurd rfl (splitLoop_empty_cons_no_eof pm line rest _ _ _ _ _ h)

/-- From the terminal state, every subsequent call returns `(nil, io.EOF)`. -/
theorem iter_eof (pm : ParallaxMap) :
    ∀ (n : Nat) (aD dz : Line),
      iterRes pm n ⟨[], aD, dz, none, none⟩ = some (none, some .eof) := by
  intro n
  induction n with
  | zero =>
    intro aD dz
    simp [iterRes, arcSplitterStep, splitLoop]
  | succ n ih =>
    intro aD dz
    simp only [iterRes, arcSplitterStep, splitLoop, List.isEmpty_nil, if_pos rfl,
      Option.bind_some]
    exact ih aD dz

/-- A call on a state with a postponed error reports that error, returns no
arc, and only clears the error flag. -/
theorem step_carried_error (pm : ParallaxMap) (st : ASt) (e : GoError)
    (h : st.err = some e) :
    arcSplitterStep pm st = some ({ st with err := none }, (none, some e)) := by
  simp [arcSplitterStep, h]

/-- `OutRel` is reflexive. -/
theorem outRel_refl (x : Option (ASt × StepRes)) : OutRel x x := by
  rcases x with _ | ⟨s, r⟩
  · trivial
  · exact ⟨rfl, Or.inl rfl⟩

/-- Two split loops over the same lines from empty arcs are observably
equivalent, whatever their stale designation fields. -/
theorem loop0_rel (pm : ParallaxMap) (l : List Line) (d1 z1 d2 z2 : Line) :
    OutRel (splitLoop pm l ⟨d1, []⟩ z1 none) (splitLoop pm l ⟨d2, []⟩ z2 none) := by
  cases l with
  | nil =>
    simp only [splitLoop, List.isEmpty_nil, if_pos rfl]
    exact ⟨rfl, Or.inr ⟨rfl, rfl, rfl, rfl, rfl⟩⟩
  | cons line rest =>
    by_cases h80 : line.length = 80
    · by_cases hs : line.getD 14 ' ' = 's'
      · simp only [splitLoop, if_pos h80, if_pos hs, errorExit, List.isEmpty_nil,
          if_pos rfl]
        exact ⟨by simp [normRes], Or.inr ⟨rfl, rfl, rfl, rfl, rfl⟩⟩
      · rcases hp : parseObs80 line pm with _ | ⟨d', eo⟩
        · simp only [splitLoop, if_pos h80, if_neg hs, hp]
          trivial
        · rcases eo with e' | o'
          · simp only [splitLoop, if_pos h80, if_neg hs, hp, errorExit,
              List.isEmpty_nil, if_pos rfl]
            exact ⟨by simp [normRes], Or.inr ⟨rfl, rfl, rfl, rfl, rfl⟩⟩
          · simp only [splitLoop, if_pos h80, if_neg hs, hp, List.isEmpty_nil,
              if_pos rfl]
            exact outRel_refl _
    · simp only [splitLoop, if_neg h80, errorExit, List.isEmpty_nil, if_pos rfl]
      exact ⟨by simp [normRes], Or.inr ⟨rfl, rfl, rfl, rfl, rfl⟩⟩

/-- `StRel` is a bisimulation up to normalised results. -/
theorem step_outrel (pm : ParallaxMap) (s1 s2 : ASt) (h : StRel s1 s2) :
    OutRel (arcSplitterStep pm s1) (arcSplitterStep pm s2) := by
  rcases h with rfl | ⟨hl, ho1, ho2, he1, he2⟩
  · exact outRel_refl _
  · simp only [arcSplitterStep, he1, he2, ho1, ho2]
    rw [hl]
    exact loop0_rel pm s2.lines s1.aDesig s1.desig s2.aDesig s2.desig

/-- `StRel`-related states produce identical normalised result traces. -/
theorem trace_rel (pm : ParallaxMap) :
    ∀ (n : Nat) (s1 s2 : ASt), StRel s1 s2 →
      traceRes pm n s1 = traceRes pm n s2 := by
  intro n
  induction n with
  | zero => intro s1 s2 _; rfl
  | succ n ih =>
    intro s1 s2 h
    have h2 := step_outrel pm s1 s2 h
    simp only [traceRes]
    rcases e1 : arcSplitterStep pm s1 with _ | ⟨t1, r1⟩ <;>
      rcases e2 : arcSplitterStep pm s2 with _ | ⟨t2, r2⟩
    · rfl
    · rw [e1, e2] at h2
      exact absurd h2 (by simp [OutRel])
    · rw [e1, e2] at h2
      exact absurd h2 (by simp [OutRel])
    · rw [e1, e2] at h2
      obtain ⟨hr, hst⟩ := h2
      simp only [Option.some_bind]
      rw [ih t1 t2 hst, hr]

/-- C2: once a call from an error-free state has returned `io.EOF`, every
subsequent call returns `(nil, io.EOF)`: no arcs, no observations, no
resurrected data. -/
theorem c2_eof_idempotent (pm : ParallaxMap) (st st2 : ASt) (res : Option Arc)
    (herr : st.err = none)
    (h : arcSplitterStep pm st = some (st2, (res, some .eof))) :
    ∀ n, iterRes pm n st2 = some (none, some .eof) := by
  obtain ⟨-, hst2, -⟩ := step_eof_shape pm st st2 res herr h
  intro n
  rw [hst2]
  exact iter_eof pm n st.aDesig st.desig

/-- Witness for `c2_eof_idempotent` on the empty stream, three calls past
end-of-stream. -/
theorem c2_eof_idempotent_witness : iterRes pmTest 3 ⟨[], [], [], none, none⟩ = some (none, some .eof) :=
  c2_eof_idempotent pmTest (initState []) ⟨[], [], [], none, none⟩ none rfl (by rfl) 3

/-- C1: a line that fails to parse (wrong length, undecodable, or a
satellite-continuation error) while the arc under construction is nonempty
makes the call return that partial arc with no error; the following call
reports the failure (never dropped); and afterwards the splitter behaves
exactly like a fresh splitter over the remaining lines, so subsequent valid
lines again produce correct arcs. -/
theorem c1_parse_failure_flush_report_resume (pm : ParallaxMap)
    (rest : List Line) (a : Arc) (desig : Line) (e : GoError)
    (hne : a.obs ≠ []) :
    (errorExit rest a desig e).2 = (some a, none) ∧
    arcSplitterStep pm (errorExit rest a desig e).1 =
      some (⟨rest, a.desig, desig, none, none⟩, (none, some e)) ∧
    (∀ n, traceRes pm n ⟨rest, a.desig, desig, none, none⟩ =
          traceRes pm n (initState rest)) ∧
    (∀ (line : Line) (o : Option VObs), line.length ≠ 80 →
      splitLoop pm (line :: rest) a desig o =
        some (errorExit rest a desig (.arcError (.lineLength line.length)))) ∧
    (∀ (line : Line) (o : Option VObs) (d2 : Line) (e2 : Obs80Err),
      line.length = 80 → line.getD 14 ' ' ≠ 's' →
      parseObs80 line pm = some (d2, .error e2) →
      splitLoop pm (line :: rest) a desig o =
        some (errorExit rest a d2 (.arcError (.obs80 e2)))) ∧
    (∀ (line : Line) (s : SatObs) (e2 : Sat2Err),
      line.length = 80 → line.getD 14 ' ' = 's' →
      parseSat2 line desig s = some (.error e2) →
      splitLoop pm (line :: rest) a desig (some (.sat s)) =
        some (errorExit rest a desig (.sat2Error e2))) := by
  refine ⟨?_, ?_, ?_, ?_, ?_, ?_⟩
  · simp [errorExit, isEmpty_false_of_ne_nil hne]
  · simp [errorExit, isEmpty_false_of_ne_nil hne, arcSplitterStep]
  · intro n
    exact trace_rel pm n _ _ (Or.inr ⟨rfl, rfl, rfl, rfl, rfl⟩)
  · intro line o h80
    simp only [splitLoop, if_neg h80]
  · intro line o d2 e2 h80 hs hp
    simp only [splitLoop, if_pos h80, if_neg hs, hp]
  · intro line s e2 h80 hs hp
    simp only [splitLoop, if_pos h80, if_pos hs, hp]

/-- A successful `ParseObs80` returns the trimmed designation columns 1-12
as the designation. -/
theorem parseObs80_ok_desig (line : Line) (pm : ParallaxMap) (d : Line) (o : VObs)
    (h : parseObs80 line pm = some (d, .ok o)) :
    d = trimSpace (line.take 12) := by
  simp only [parseObs80] at h
  split at h
  · simp at h
  · repeat (split at h <;> try simp_all)

/-- A successful `ParseSat2` implies the continuation line's trimmed
designation columns equal the expected designation. -/
theorem parseSat2_ok_desig (line des : Line) (s s2 : SatObs)
    (h : parseSat2 line des s = some (.ok s2)) :
    trimSpace (line.take 12) = des := by
  simp only [parseSat2] at h
  split at h
  · simp at h
  case h_2 d12 heq =>
    have hd : d12 = line.take 12 := by
      simp only [goSlice] at heq
      split at heq
      · simpa [List.drop_zero] using heq.symm
      · simp at heq
    split at h
    · simp at h
    next hcond =>
      rw [← hd]
      exact not_not.mp hcond

/-- Prepending a line that carries the arc designation preserves the
all-but-last designation-uniformity of a consumed run. -/
theorem consume_prepend (line : Line) (consumed : List Line) (d : Line)
    (hline : trimSpace (line.take 12) = d)
    (hdrop : ∀ l ∈ consumed.dropLast, trimSpace (l.take 12) = d) :
    ∀ l ∈ (line :: consumed).dropLast, trimSpace (l.take 12) = d := by
  intro l hl
  rcases consumed with _ | ⟨c0, cs⟩
  · simp at hl
  · rw [List.dropLast_cons₂, List.mem_cons] at hl
    rcases hl with rfl | hl
    · exact hline
    · exact hdrop l hl

/-- A designation-boundary exit survives prepending a consumed line: the
last consumed line (the boundary line) is unchanged. -/
theorem thread_boundary (pm : ParallaxMap) (line : Line) (consumed : List Line)
    (st2 : ASt) (arc : Arc) (res2 : Option GoError)
    (hh : res2 = none ∧ st2.err = none ∧ arc.obs ≠ [] ∧ consumed ≠ [] ∧
      ∃ lastLine o2, consumed.getLast? = some lastLine ∧
        parseObs80 lastLine pm = some (st2.desig, Except.ok o2) ∧
        st2.o = some o2 ∧ st2.desig ≠ arc.desig ∧
        trimSpace (lastLine.take 12) = st2.desig) :
    res2 = none ∧ st2.err = none ∧ arc.obs ≠ [] ∧ (line :: consumed) ≠ [] ∧
      ∃ lastLine o2, (line :: consumed).getLast? = some lastLine ∧
        parseObs80 lastLine pm = some (st2.desig, Except.ok o2) ∧
        st2.o = some o2 ∧ st2.desig ≠ arc.desig ∧
        trimSpace (lastLine.take 12) = st2.desig := by
  obtain ⟨h1, h2, h3, h4, lastLine, o2, h5, h6, h7, h8, h9⟩ := hh
  refine ⟨h1, h2, h3, by simp, lastLine, o2, ?_, h6, h7, h8, h9⟩
  rcases consumed with _ | ⟨c0, cs⟩
  · exact absurd rfl h4
  · simpa using h5

/-- An end-of-stream flush survives prepending a consumed line carrying
the arc designation: the full-run uniformity extends to it. -/
theorem thread_eof (line : Line) (consumed : List Line)
    (st2 : ASt) (arc : Arc) (res2 : Option GoError)
    (hline : trimSpace (line.take 12) = arc.desig)
    (hh : res2 = none ∧ st2.err = some GoError.eof ∧ arc.obs ≠ [] ∧ st2.lines = [] ∧
      st2.o = none ∧ ∀ l ∈ consumed, trimSpace (l.take 12) = arc.desig) :
    res2 = none ∧ st2.err = some GoError.eof ∧ arc.obs ≠ [] ∧ st2.lines = [] ∧
      st2.o = none ∧ ∀ l ∈ line :: consumed, trimSpace (l.take 12) = arc.desig := by
  obtain ⟨h1, h2, h3, h4, h5, h6⟩ := hh
  refine ⟨h1, h2, h3, h4, h5, fun l hl => ?_⟩
  rcases List.mem_cons.mp hl with rfl | hl
  · exact hline
  · exact h6 l hl

/-- A parse-failure flush (error postponed) survives prepending a
consumed line. -/
theorem thread_failure (line : Line) (consumed : List Line)
    (st2 : ASt) (arc : Arc) (res2 : Option GoError)
    (hh : ∃ e, res2 = none ∧ st2.err = some e ∧ arc.obs ≠ [] ∧ consumed ≠ [] ∧
      st2.o = none) :
    ∃ e, res2 = none ∧ st2.err = some e ∧ arc.obs ≠ [] ∧ (line :: consumed) ≠ [] ∧
      st2.o = none := by
  obtain ⟨e, h1, h2, h3, h4, h5⟩ := hh
  exact ⟨e, h1, h2, h3, by simp, h5⟩

/-- Designation-run consumption, for every exit of the split loop that
returns an arc.  The consumed lines are an initial run of the input and
all but the last carry the arc's trimmed designation; then, by exit kind:
at a designation boundary the last consumed line decodes to the differing
designation carried over (not lost); at end of stream every consumed line
(there may be none: the carried observation alone) carries the arc's
designation; at a parse failure with a nonempty arc the failing last line
is consumed and the error postponed; and at a parse failure with an empty
arc the failing line is consumed alone and the stale `&a` pointer is
returned with the error at once. -/
theorem splitLoop_consume (pm : ParallaxMap) :
    ∀ (lines : List Line) (a : Arc) (desig : Line) (o : Option VObs)
      (st2 : ASt) (arc : Arc) (res2 : Option GoError),
      (∀ x, o = some x → a.obs ≠ []) →
      (a.obs ≠ [] → desig = a.desig) →
      splitLoop pm lines a desig o = some (st2, (some arc, res2)) →
      ∃ consumed, lines = consumed ++ st2.lines ∧
        (a.obs ≠ [] → arc.desig = a.desig) ∧
        (∀ l ∈ consumed.dropLast, trimSpace (l.take 12) = arc.desig) ∧
        ((res2 = none ∧ st2.err = none ∧ arc.obs ≠ [] ∧ consumed ≠ [] ∧
            ∃ lastLine o2, consumed.getLast? = some lastLine ∧
              parseObs80 lastLine pm = some (st2.desig, Except.ok o2) ∧
              st2.o = some o2 ∧ st2.desig ≠ arc.desig ∧
              trimSpace (lastLine.take 12) = st2.desig) ∨
          (res2 = none ∧ st2.err = some GoError.eof ∧ arc.obs ≠ [] ∧
            st2.lines = [] ∧ st2.o = none ∧
            ∀ l ∈ consumed, trimSpace (l.take 12) = arc.desig) ∨
          (∃ e, res2 = none ∧ st2.err = some e ∧ arc.obs ≠ [] ∧ consumed ≠ [] ∧
            st2.o = none) ∨
          (∃ e, res2 = some e ∧ o = none ∧ arc = a ∧ a.obs = [] ∧
            st2.err = none ∧ st2.o = none ∧ consumed.dropLast = [])) := by
  intro lines
  induction lines with
  | nil =>
    intro a desig o st2 arc res2 hInv1 hInv2 h
    simp only [splitLoop] at h
    split at h
    · simp at h
    next hemp =>
      simp only [Option.some.injEq, Prod.mk.injEq] at h
      obtain ⟨hst2, harc, hres⟩ := h
      refine ⟨[], by rw [← hst2]; simp, fun _ => by rw [← harc], by simp,
        Or.inr (Or.inl ⟨hres.symm, by rw [← hst2], ?_, by rw [← hst2],
          by rw [← hst2], by simp⟩)⟩
      rw [← harc]
      simpa using hemp
  | cons line rest ih =>
    intro a desig o st2 arc res2 hInv1 hInv2 h
    simp only [splitLoop] at h
    split at h
    case isFalse h80 =>
      -- wrong line length: error exit
      simp only [errorExit] at h
      split at h <;> simp only [Option.some.injEq, Prod.mk.injEq] at h <;>
        obtain ⟨hst2, harc, hres⟩ := h
      next hemp =>
        have hanil : a.obs = [] := by simpa using hemp
        have ho : o = none := by
          rcases o with _ | x
          · rfl
          · exact absurd (hInv1 x rfl) (by simpa using hemp)
        exact ⟨[line], by rw [← hst2]; simp, fun hx => absurd hanil hx, by simp,
          Or.inr (Or.inr (Or.inr ⟨_, hres.symm, ho, harc.symm, hanil,
            by rw [← hst2], by rw [← hst2], by simp⟩))⟩
      next hemp =>
        have hane : a.obs ≠ [] := by simpa using hemp
        exact ⟨[line], by rw [← hst2]; simp, fun _ => by rw [← harc], by simp,
          Or.inr (Or.inr (Or.inl ⟨_, hres.symm, by rw [← hst2],
            by rw [← harc]; exact hane, by simp, by rw [← hst2]⟩))⟩
    case isTrue h80 =>
      split at h
      case isTrue hs =>
        -- satellite continuation line
        split at h
        · -- carried observation is a SatObs
          rename_i x s
          split at h
          · simp at h
          · -- ParseSat2 error: error exit with a nonempty arc
            have hane : a.obs ≠ [] := hInv1 _ rfl
            simp only [errorExit] at h
            split at h <;> simp only [Option.some.injEq, Prod.mk.injEq] at h
            next hemp => exact absurd hane (by simpa using hemp)
            next hemp =>
              obtain ⟨hst2, harc, hres⟩ := h
              exact ⟨[line], by rw [← hst2]; simp, fun _ => by rw [← harc], by simp,
                Or.inr (Or.inr (Or.inl ⟨_, hres.symm, by rw [← hst2],
                  by rw [← harc]; exact hane, by simp, by rw [← hst2]⟩))⟩
          · -- merged: recurse
            rename_i s2 hp
            have hane : a.obs ≠ [] := hInv1 _ rfl
            have hdes : desig = a.desig := hInv2 hane
            obtain ⟨consumed, hlines, harcdes, hdrop, htri⟩ :=
              ih ⟨a.desig, a.obs.dropLast ++ [.sat s2]⟩ desig (some (.sat s2))
                st2 arc res2 (fun x _ => by simp) (fun _ => hdes) h
            have harcdes2 : arc.desig = a.desig := harcdes (by simp)
            have hline : trimSpace (line.take 12) = arc.desig := by
              rw [parseSat2_ok_desig line desig s s2 hp, hdes]
              exact harcdes2.symm
            refine ⟨line :: consumed, by simp [hlines], fun _ => harcdes2,
              consume_prepend line consumed arc.desig hline hdrop, ?_⟩
            rcases htri with hh | hh | hh | ⟨e, -, ho, -⟩
            · exact Or.inl (thread_boundary pm line consumed st2 arc res2 hh)
            · exact Or.inr (Or.inl (thread_eof line consumed st2 arc res2 hline hh))
            · exact Or.inr (Or.inr (Or.inl (thread_failure line consumed st2 arc res2 hh)))
            · simp at ho
        · -- line 2 without line 1: error exit
          simp only [errorExit] at h
          split at h <;> simp only [Option.some.injEq, Prod.mk.injEq] at h <;>
            obtain ⟨hst2, harc, hres⟩ := h
          next hemp =>
            have hanil : a.obs = [] := by simpa using hemp
            have ho : o = none := by
              rcases o with _ | x
              · rfl
              · exact absurd (hInv1 x rfl) (by simpa using hemp)
            exact ⟨[line], by rw [← hst2]; simp, fun hx => absurd hanil hx, by simp,
              Or.inr (Or.inr (Or.inr ⟨_, hres.symm, ho, harc.symm, hanil,
                by rw [← hst2], by rw [← hst2], by simp⟩))⟩
          next hemp =>
            have hane : a.obs ≠ [] := by simpa using hemp
            exact ⟨[line], by rw [← hst2]; simp, fun _ => by rw [← harc], by simp,
              Or.inr (Or.inr (Or.inl ⟨_, hres.symm, by rw [← hst2],
                by rw [← harc]; exact hane, by simp, by rw [← hst2]⟩))⟩
      case isFalse hs =>
        split at h
        · simp at h
        · -- ParseObs80 error: error exit
          simp only [errorExit] at h
          split at h <;> simp only [Option.some.injEq, Prod.mk.injEq] at h <;>
            obtain ⟨hst2, harc, hres⟩ := h
          next hemp =>
            have hanil : a.obs = [] := by simpa using hemp
            have ho : o = none := by
              rcases o with _ | x
              · rfl
              · exact absurd (hInv1 x rfl) (by simpa using hemp)
            exact ⟨[line], by rw [← hst2]; simp, fun hx => absurd hanil hx, by simp,
              Or.inr (Or.inr (Or.inr ⟨_, hres.symm, ho, harc.symm, hanil,
                by rw [← hst2], by rw [← hst2], by simp⟩))⟩
          next hemp =>
            have hane : a.obs ≠ [] := by simpa using hemp
            exact ⟨[line], by rw [← hst2]; simp, fun _ => by rw [← harc], by simp,
              Or.inr (Or.inr (Or.inl ⟨_, hres.symm, by rw [← hst2],
                by rw [← harc]; exact hane, by simp, by rw [← hst2]⟩))⟩
        · -- ParseObs80 success
          rename_i d2 o2 hp
          split at h
          case isTrue hae =>
            -- empty arc: start a new one from this line
            have hanil : a.obs = [] := by simpa using hae
            obtain ⟨consumed, hlines, harcdes, hdrop, htri⟩ :=
              ih ⟨d2, [o2]⟩ d2 (some o2) st2 arc res2 (fun x _ => by simp)
                (fun _ => rfl) h
            have harcdes2 : arc.desig = d2 := harcdes (by simp)
            have hline : trimSpace (line.take 12) = arc.desig := by
              rw [harcdes2]
              exact (parseObs80_ok_desig line pm d2 o2 hp).symm
            refine ⟨line :: consumed, by simp [hlines], fun hx => absurd hanil hx,
              consume_prepend line consumed arc.desig hline hdrop, ?_⟩
            rcases htri with hh | hh | hh | ⟨e, -, ho, -⟩
            · exact Or.inl (thread_boundary pm line consumed st2 arc res2 hh)
            · exact Or.inr (Or.inl (thread_eof line consumed st2 arc res2 hline hh))
            · exact Or.inr (Or.inr (Or.inl (thread_failure line consumed st2 arc res2 hh)))
            · simp at ho
          case isFalse hae =>
            have hane : a.obs ≠ [] := by simpa using hae
            split at h
            case isTrue heq =>
              -- same designation: append and recurse
              obtain ⟨consumed, hlines, harcdes, hdrop, htri⟩ :=
                ih ⟨a.desig, a.obs ++ [o2]⟩ d2 (some o2) st2 arc res2
                  (fun x _ => by simp) (fun _ => heq) h
              have harcdes2 : arc.desig = a.desig := harcdes (by simp)
              have hline : trimSpace (line.take 12) = arc.desig := by
                rw [harcdes2, ← heq]
                exact (parseObs80_ok_desig line pm d2 o2 hp).symm
              refine ⟨line :: consumed, by simp [hlines], fun _ => harcdes2,
                consume_prepend line consumed arc.desig hline hdrop, ?_⟩
              rcases htri with hh | hh | hh | ⟨e, -, ho, -⟩
              · exact Or.inl (thread_boundary pm line consumed st2 arc res2 hh)
              · exact Or.inr (Or.inl (thread_eof line consumed st2 arc res2 hline hh))
              · exact Or.inr (Or.inr (Or.inl (thread_failure line consumed st2 arc res2 hh)))
              · simp at ho
            case isFalse heq =>
              -- designation boundary: return the arc, carry this observation
              simp only [Option.some.injEq, Prod.mk.injEq] at h
              obtain ⟨hst2, harc, hres⟩ := h
              refine ⟨[line], by rw [← hst2]; simp, fun _ => by rw [← harc], by simp,
                Or.inl ⟨hres.symm, by rw [← hst2], by rw [← harc]; exact hane,
                  by simp, line, o2, by simp, ?_, ?_, ?_, ?_⟩⟩
              · rw [← hst2]
                exact hp
              · rw [← hst2]
              · rw [← hst2, ← harc]
                exact heq
              · rw [← hst2]
                exact (parseObs80_ok_desig line pm d2 o2 hp).symm

/-- C3: for every arc returned by a call of the splitter (at a designation
boundary, flushed at end of stream, flushed at a parse failure, or the
empty stale pointer returned with an immediate error), the call consumes
an initial run of the remaining lines, every consumed line but the last
carries the arc's trimmed designation in columns 1-12, and a seeded arc
(carried-in observation) keeps that observation and its designation.  By
exit kind: at a boundary the last consumed line decodes to the next,
different designation whose observation is carried over, not lost; at end
of stream every consumed line carries the arc's designation; at a parse
failure with a nonempty arc the failing line is the last consumed and the
error is postponed; with an empty arc only the failing line is consumed,
the returned arc is empty, and the error is returned at once. -/
theorem c3_arc_designation_run (pm : ParallaxMap) (st st2 : ASt) (arc : Arc)
    (res2 : Option GoError)
    (herr : st.err = none)
    (h : arcSplitterStep pm st = some (st2, (some arc, res2))) :
    ∃ consumed, st.lines = consumed ++ st2.lines ∧
      (st.o ≠ none → arc.obs ≠ [] ∧ arc.desig = st.desig) ∧
      (∀ l ∈ consumed.dropLast, trimSpace (l.take 12) = arc.desig) ∧
      ((res2 = none ∧ st2.err = none ∧ arc.obs ≠ [] ∧ consumed ≠ [] ∧
          ∃ lastLine o2, consumed.getLast? = some lastLine ∧
            parseObs80 lastLine pm = some (st2.desig, Except.ok o2) ∧
            st2.o = some o2 ∧ st2.desig ≠ arc.desig ∧
            trimSpace (lastLine.take 12) = st2.desig) ∨
        (res2 = none ∧ st2.err = some GoError.eof ∧ arc.obs ≠ [] ∧
          st2.lines = [] ∧ st2.o = none ∧
          ∀ l ∈ consumed, trimSpace (l.take 12) = arc.desig) ∨
        (∃ e, res2 = none ∧ st2.err = some e ∧ arc.obs ≠ [] ∧ consumed ≠ [] ∧
          st2.o = none) ∨
        (∃ e, res2 = some e ∧ arc.obs = [] ∧ st2.err = none ∧ st2.o = none ∧
          consumed.dropLast = [])) := by
  simp only [arcSplitterStep, herr] at h
  match ho : st.o, h with
  | some o, h =>
    obtain ⟨consumed, h1, h2, h3, htri⟩ :=
      splitLoop_consume pm st.lines ⟨st.desig, [o]⟩ st.desig (some o) st2 arc res2
        (fun x _ => by simp) (fun _ => rfl) h
    have hobs : arc.obs ≠ [] := by
      rcases htri with hh | hh | hh | ⟨e, -, hoo, -⟩
      · exact hh.2.2.1
      · exact hh.2.2.1
      · obtain ⟨e, -, -, hobs, -⟩ := hh
        exact hobs
      · simp at hoo
    refine ⟨consumed, h1, fun _ => ⟨hobs, h2 (by simp)⟩, h3, ?_⟩
    rcases htri with hh | hh | hh | ⟨e, -, hoo, -⟩
    · exact Or.inl hh
    · exact Or.inr (Or.inl hh)
    · exact Or.inr (Or.inr (Or.inl hh))
    · simp at hoo
  | none, h =>
    obtain ⟨consumed, h1, h2, h3, htri⟩ :=
      splitLoop_consume pm st.lines ⟨st.aDesig, []⟩ st.desig none st2 arc res2
        (fun x hx => by simp at hx) (fun hx => absurd rfl hx) h
    refine ⟨consumed, h1, fun hx => absurd rfl hx, h3, ?_⟩
    rcases htri with hh | hh | hh | ⟨e, hr, -, harc, -, he, hoo, hdl⟩
    · exact Or.inl hh
    · exact Or.inr (Or.inl hh)
    · exact Or.inr (Or.inr (Or.inl hh))
    · exact Or.inr (Or.inr (Or.inr ⟨e, hr, by rw [harc], he, hoo, hdl⟩))

/-- Witness for `c3_arc_designation_run`: the two-line stream with one
observation each of NE00030 and NE00199 yields the NE00030 arc at a
designation boundary, consuming both lines and carrying the NE00199
observation. -/
theorem c3_arc_designation_run_witness :
    ∃ consumed,
      (initState [lineO1, lineO2a]).lines = consumed ++ stAfterO1.lines ∧
      ((initState [lineO1, lineO2a]).o ≠ none →
        arcO1.obs ≠ [] ∧ arcO1.desig = (initState [lineO1, lineO2a]).desig) ∧
      (∀ l ∈ consumed.dropLast, trimSpace (l.take 12) = arcO1.desig) ∧
      (((none : Option GoError) = none ∧ stAfterO1.err = none ∧ arcO1.obs ≠ [] ∧
          consumed ≠ [] ∧
          ∃ lastLine o2, consumed.getLast? = some lastLine ∧
            parseObs80 lastLine pmTest = some (stAfterO1.desig, Except.ok o2) ∧
            stAfterO1.o = some o2 ∧ stAfterO1.desig ≠ arcO1.desig ∧
            trimSpace (lastLine.take 12) = stAfterO1.desig) ∨
        ((none : Option GoError) = none ∧ stAfterO1.err = some GoError.eof ∧
          arcO1.obs ≠ [] ∧ stAfterO1.lines = [] ∧ stAfterO1.o = none ∧
          ∀ l ∈ consumed, trimSpace (l.take 12) = arcO1.desig) ∨
        (∃ e, (none : Option GoError) = none ∧ stAfterO1.err = some e ∧
          arcO1.obs ≠ [] ∧ consumed ≠ [] ∧ stAfterO1.o = none) ∨
        (∃ e, (none : Option GoError) = some e ∧ arcO1.obs = [] ∧
          stAfterO1.err = none ∧ stAfterO1.o = none ∧ consumed.dropLast = [])) :=
  c3_arc_designation_run pmTest (initState [lineO1, lineO2a]) stAfterO1 arcO1 none
    rfl (by with_unfolding_all rfl)

/-- Witness for `c2_eof_idempotent` is above; this is the witness for
`c1_parse_failure_flush_report_resume`: flushing the NE00030 arc on a parse
failure, reporting the length error next call, then matching a fresh
splitter's two-call trace on the exhausted stream. -/
theorem c1_parse_failure_flush_report_resume_witness :
    (errorExit [] arcO1 "NE00030".toList (.arcError (.lineLength 43))).2 =
      (some arcO1, none) ∧
    arcSplitterStep pmTest
        (errorExit [] arcO1 "NE00030".toList (.arcError (.lineLength 43))).1 =
      some (⟨[], arcO1.desig, "NE00030".toList, none, none⟩,
            (none, some (.arcError (.lineLength 43)))) ∧
    traceRes pmTest 2 ⟨[], arcO1.desig, "NE00030".toList, none, none⟩ =
      traceRes pmTest 2 (initState []) :=
  have h := c1_parse_failure_flush_report_resume pmTest [] arcO1
    "NE00030".toList (.arcError (.lineLength 43)) (by simp [arcO1])
  ⟨h.1, h.2.1, h.2.2.1 2⟩

/-! ### Decoder and clusterer claims -/

/-- C5: `ParseObs80Date "2014 09 04.8"` returns MJD 56904.8 with ok true. -/
theorem c5_date_roundtrip :
    parseObs80Date "2014 09 04.8".toList = some ((56904.8 : ℚ), true) := by
  with_unfolding_all rfl

/-- C4 counterexample: on the spec's own round-trip example the decoder
returns 56904.8, but the claimed formula, read with mathematical floor
division as the claim demands, yields 56539.8: floor((9-14)/12) is -1 where
Go's truncating division gives 0.  The claim's formula disagrees with the
code for every month other than February. -/
theorem c4_floor_formula_counterexample :
    parseObs80Date "2014 09 04.8".toList = some ((56904.8 : ℚ), true) ∧
    specFloorMJD 2014 9 (24/5) = (56539.8 : ℚ) ∧
    (56904.8 : ℚ) ≠ (56539.8 : ℚ) :=
  ⟨by with_unfolding_all rfl, by with_unfolding_all rfl, by norm_num⟩

/-- C4 amended: for every parsed date, the decoder computes the claimed
formula with Go's truncating integer division (toward zero) in place of
mathematical floor, for months within the table bounds. -/
theorem c4_trunc_formula (d : Line) (Y M : Int) (D : ℚ)
    (hlen : ¬d.length < 10)
    (hY : atoi (d.take 4) = some Y)
    (hM : atoi ((d.drop 5).take 2) = some M)
    (hD : parseFloatQ (trimSpace (d.drop 8)) = some D)
    (hM0 : 0 ≤ M) (hM12 : M ≤ 12) :
    parseObs80Date d = some (specTruncMJD Y M D, true) := by
  have hidx : (if 0 ≤ M ∧ M < 13 then some (flookup.getD M.toNat 0) else none) =
      some (flookup.getD M.toNat 0) := if_pos ⟨hM0, by omega⟩
  simp only [parseObs80Date, flookupAt, if_neg hlen, hY, hM, hD, hidx, specTruncMJD]

/-- Witness for `c4_trunc_formula` at the round-trip example date. -/
theorem c4_trunc_formula_witness :
    parseObs80Date "2014 09 04.8".toList = some (specTruncMJD 2014 9 (24/5), true) :=
  c4_trunc_formula "2014 09 04.8".toList 2014 9 (24/5)
    (by decide) (by decide) (by decide) (by with_unfolding_all decide)
    (by decide) (by decide)

/-- C6: the claim (decoding never panics on any 80-character line) states
the intended, documented error contract (spec section 7: format errors are
returned as typed results, never a panic), but the code indexes the 13-entry
`flookup` array with the unvalidated month: an 80-character line whose month
field is "99" makes `ParseObs80` panic with an out-of-range index. -/
theorem c6_month_out_of_range_panics :
    lineMonth99.length = 80 ∧ parseObs80 lineMonth99 pmTest = none :=
  ⟨by decide, by with_unfolding_all rfl⟩

/-- C10 counterexample: not every line shorter than 80 characters makes
`ParseSat2` panic — a 12-character line whose designation mismatches returns
the mismatch error before any out-of-range access. -/
theorem c10_short_line_counterexample :
    (List.replicate 12 ' ' : Line).length < 80 ∧
    parseSat2 (List.replicate 12 ' ') ['X'] dummySat =
      some (.error .desigMismatch) :=
  ⟨by decide, by with_unfolding_all rfl⟩

/-- C10 amended: `ParseSat2` performs no length check; every line shorter
than 12 characters panics at the designation slice (and lines long enough to
pass the identity checks panic before reaching columns their length
excludes), so callers must guarantee 80-character input. -/
theorem c10_short_line_panics (line des1 : Line) (s1 : SatObs)
    (h : line.length < 12) :
    parseSat2 line des1 s1 = none := by
  have hc : ¬(0 ≤ 12 ∧ 12 ≤ line.length) := by omega
  simp only [parseSat2, goSlice, if_neg hc]

/-- Witness for `c10_short_line_panics` on a 5-character line. -/
theorem c10_short_line_panics_witness :
    parseSat2 "03620".toList "03620".toList dummySat = none :=
  c10_short_line_panics "03620".toList "03620".toList dummySat (by decide)

/-- C7 counterexample: decoding the repository's own satellite test pair
(site 250, units flag '1' in column 33) stores the offset components
multiplied by 1/149597870 — the code's `1 / 1 AU in km`, converting
kilometre offsets to AU.  The claim's description is wrong on both sides:
the stored x is neither the raw field value (the "already AU" reading) nor
the raw value times an Earth-radius/AU factor. -/
theorem c7_offset_scale_counterexample :
    parseObs80 lineSat1 pmTest = some ("03620".toList, .ok (.sat satObs1)) ∧
    parseSat2 lineSat2 "03620".toList satObs1 = some (.ok { satObs1 with
      offset := ⟨-3443553/1495978700000, -69191239/1495978700000,
                 8722948/1495978700000⟩ }) ∧
    (-3443553/1495978700000 : ℚ) = (-3443553/10000) * (1/149597870) ∧
    (-3443553/1495978700000 : ℚ) ≠ (-3443553/10000) * earthRadiusOverAU ∧
    (-3443553/1495978700000 : ℚ) ≠ (-3443553/10000 : ℚ) := by
  refine ⟨by with_unfolding_all rfl, ?_,
    by norm_num, by norm_num [earthRadiusOverAU], by norm_num⟩
  have h0 : goSlice lineSat2 0 12 = some "03620       ".toList := by
    with_unfolding_all rfl
  have h1 : trimSpace "03620       ".toList = "03620".toList := by
    with_unfolding_all rfl
  have h2 : goSlice lineSat2 15 32 = some "1996 08 30.51477 ".toList := by
    with_unfolding_all rfl
  have h3 : parseObs80Date "1996 08 30.51477 ".toList =
      some (5032551477/100000, true) := by with_unfolding_all rfl
  have h4 : goSlice lineSat2 77 80 = some "250".toList := by
    with_unfolding_all rfl
  have h5 : goSlice lineSat2 34 46 = some "-  344.3553 ".toList := by
    with_unfolding_all rfl
  have h6 : parseMpcOffset "-  344.3553 ".toList = some (-3443553/10000) := by
    with_unfolding_all rfl
  have h7 : goSlice lineSat2 46 58 = some "- 6919.1239 ".toList := by
    with_unfolding_all rfl
  have h8 : parseMpcOffset "- 6919.1239 ".toList = some (-69191239/10000) := by
    with_unfolding_all rfl
  have h9 : goSlice lineSat2 58 70 = some "+  872.2948 ".toList := by
    with_unfolding_all rfl
  have h10 : parseMpcOffset "+  872.2948 ".toList = some (8722948/10000) := by
    with_unfolding_all rfl
  have h11 : goIndex lineSat2 32 = some '1' := by with_unfolding_all rfl
  simp only [parseSat2, h0, h1, h2, h3, h4, h5, h6, h7, h8, h9, h10, h11,
    satObs1, ne_eq]
  norm_num

/-- C7 amended: the three offset fields (columns 35-46, 47-58, 59-70) are
parsed as sign plus magnitude and stored unscaled — the format's default
unit is AU — unless column 33 is '1' (offsets in kilometres), in which case
each component is multiplied by the fixed factor 1/149597870, the code's
`1 / 1 AU in km`, before being stored. -/
theorem c7_offset_scaling (line des1 : Line) (s1 s2 : SatObs)
    (ox oy oz : Line) (x y z : ℚ) (u : Char)
    (hx : goSlice line 34 46 = some ox) (hpx : parseMpcOffset ox = some x)
    (hy : goSlice line 46 58 = some oy) (hpy : parseMpcOffset oy = some y)
    (hz : goSlice line 58 70 = some oz) (hpz : parseMpcOffset oz = some z)
    (hu : goIndex line 32 = some u)
    (hok : parseSat2 line des1 s1 = some (.ok s2)) :
    s2.offset = if u = '1'
      then ⟨x * (1/149597870), y * (1/149597870), z * (1/149597870)⟩
      else ⟨x, y, z⟩ := by
  simp only [parseSat2, hx, hpx, hy, hpy, hz, hpz, hu] at hok
  repeat (split at hok <;> try simp_all)
  all_goals by_cases hu1 : u = '1' <;> simp_all <;> subst hok <;> simp

/-- Witness for `c7_offset_scaling` on the repository's satellite test
pair. -/
theorem c7_offset_scaling_witness :
    satObs2Merged.offset = if '1' = '1'
      then ⟨(-3443553/10000) * ((1 : ℚ)/149597870),
            (-69191239/10000) * ((1 : ℚ)/149597870),
            (8722948/10000) * ((1 : ℚ)/149597870)⟩
      else ⟨-3443553/10000, -69191239/10000, 8722948/10000⟩ := by
  refine c7_offset_scaling lineSat2 "03620".toList satObs1 satObs2Merged
    "-  344.3553 ".toList "- 6919.1239 ".toList "+  872.2948 ".toList
    (-3443553/10000) (-69191239/10000) (8722948/10000) '1'
    (by with_unfolding_all rfl) (by with_unfolding_all rfl)
    (by with_unfolding_all rfl) (by with_unfolding_all rfl)
    (by with_unfolding_all rfl) (by with_unfolding_all rfl)
    (by with_unfolding_all rfl) ?_
  have h0 : goSlice lineSat2 0 12 = some "03620       ".toList := by
    with_unfolding_all rfl
  have h1 : trimSpace "03620       ".toList = "03620".toList := by
    with_unfolding_all rfl
  have h2 : goSlice lineSat2 15 32 = some "1996 08 30.51477 ".toList := by
    with_unfolding_all rfl
  have h3 : parseObs80Date "1996 08 30.51477 ".toList =
      some (5032551477/100000, true) := by with_unfolding_all rfl
  have h4 : goSlice lineSat2 77 80 = some "250".toList := by
    with_unfolding_all rfl
  have h5 : goSlice lineSat2 34 46 = some "-  344.3553 ".toList := by
    with_unfolding_all rfl
  have h6 : parseMpcOffset "-  344.3553 ".toList = some (-3443553/10000) := by
    with_unfolding_all rfl
  have h7 : goSlice lineSat2 46 58 = some "- 6919.1239 ".toList := by
    with_unfolding_all rfl
  have h8 : parseMpcOffset "- 6919.1239 ".toList = some (-69191239/10000) := by
    with_unfolding_all rfl
  have h9 : goSlice lineSat2 58 70 = some "+  872.2948 ".toList := by
    with_unfolding_all rfl
  have h10 : parseMpcOffset "+  872.2948 ".toList = some (8722948/10000) := by
    with_unfolding_all rfl
  have h11 : goIndex lineSat2 32 = some '1' := by with_unfolding_all rfl
  simp only [parseSat2, h0, h1, h2, h3, h4, h5, h6, h7, h8, h9, h10, h11,
    satObs1, satObs2Merged, ne_eq]
  norm_num

/-- C8: an observer group of exactly two observations whose span is at
least 0.042 day and which the 2-5-obs/0.125-day rule does not accept is
emitted as one tracklet of two when the times are less than half a day
apart, and as two singleton tracklets otherwise. -/
theorem c8_two_obs_rule (t1 t2 : ℚ) (o : Line)
    (hle : t1 ≤ t2) (h042 : 42/1000 ≤ t2 - t1) (h125 : 125/1000 ≤ t2 - t1) :
    findTrackletsIndex [⟨t1, o⟩, ⟨t2, o⟩] =
      if t2 - t1 < 1/2 then [[0, 1]] else [[0], [1]] := by
  have hgrp : groupObs [⟨t1, o⟩, ⟨t2, o⟩] = [(o, [⟨t1, 0⟩, ⟨t2, 1⟩])] := by
    simp [groupObs, List.enum, upsert]
  have hsort : sortByMjd [(⟨t1, 0⟩ : TD Nat), ⟨t2, 1⟩] = [⟨t1, 0⟩, ⟨t2, 1⟩] := by
    simp [sortByMjd, List.insertionSort, List.orderedInsert, hle]
  have hA : ¬(t2 - t1 < 42/1000) := by linarith
  have hB : ¬(t2 - t1 < 125/1000) := by linarith
  by_cases hC : t2 - t1 < 1/2
  · have hC2 : t2 - t1 < (2⁻¹ : ℚ) := by linarith
    simp [findTrackletsIndex, fullFTI, preTl, hgrp, hsort, reduce, mkTk, hA, hB,
      hC2, sortByMean, List.insertionSort, List.orderedInsert,
      List.getLastD_cons, List.getLastD_nil]
  · have hC2 : ¬(t2 - t1 < (2⁻¹ : ℚ)) := by linarith
    simp [findTrackletsIndex, fullFTI, preTl, hgrp, hsort, reduce, mkTk, hA, hB,
      hC2, hle, sortByMean, List.insertionSort, List.orderedInsert,
      List.getLastD_cons, List.getLastD_nil]

/-- Witness for `c8_two_obs_rule`: 0.2 day apart gives one tracklet of two;
1 day apart gives two singletons. -/
theorem c8_two_obs_rule_witness :
    (findTrackletsIndex [⟨0, ['X']⟩, ⟨2/10, ['X']⟩] =
      if (2/10 : ℚ) - 0 < 1/2 then [[0, 1]] else [[0], [1]]) ∧
    (findTrackletsIndex [⟨0, ['X']⟩, ⟨1, ['X']⟩] =
      if (1 : ℚ) - 0 < 1/2 then [[0, 1]] else [[0], [1]]) :=
  ⟨c8_two_obs_rule 0 (2/10) ['X'] (by norm_num) (by norm_num) (by norm_num),
   c8_two_obs_rule 0 1 ['X'] (by norm_num) (by norm_num) (by norm_num)⟩

/-- C9 counterexample: with two observers tied at the same time (hence two
tracklets with tied mean times), swapping the two input entities does not
permute the output accordingly: the Go map iteration order and the unstable
final sort leave the tie order unspecified, and in the modelled iteration
order the swapped input yields the tracklets in the opposite order, not the
same tracklets with indices mapped through the permutation. -/
theorem c9_order_counterexample :
    [entB, entA].Perm [entA, entB] ∧
    derefFTI [entA, entB] = [(5, [some entA]), (5, [some entB])] ∧
    derefFTI [entB, entA] = [(5, [some entB]), (5, [some entA])] ∧
    derefFTI [entB, entA] ≠ derefFTI [entA, entB] :=
  ⟨by decide, by with_unfolding_all decide, by with_unfolding_all decide,
   by with_unfolding_all decide⟩

/-! ### C9: permutation invariance of the tracklet clusterer

The grouping fold, the per-group sort-and-reduce, and the final sort are
related across a permutation of the input.  Payload indices differ between
the two runs, so tracklets are compared after dereferencing the indices
through their own input list (`derefFTI`). -/

/-- `upsert` appends to the looked-up group of its key and leaves every
other key's group unchanged. -/
theorem alookup_upsert (k : Line) (v : TD Nat)
    (m : List (Line × List (TD Nat))) (k2 : Line) :
    alookup (upsert k v m) k2 =
      if k = k2 then alookup m k2 ++ [v] else alookup m k2 := by
  induction m with
  | nil => by_cases h : k = k2 <;> simp [upsert, alookup, h]
  | cons p r ih =>
    obtain ⟨k3, vs⟩ := p
    by_cases h3 : k3 = k
    · subst h3
      by_cases h : k3 = k2 <;> simp [upsert, alookup, h]
    · by_cases h : k3 = k2
      · have hkk2 : ¬k = k2 := fun hh => h3 (h.trans hh.symm)
        have hk2k : ¬k2 = k := fun hh => hkk2 hh.symm
        simp [upsert, alookup, h3, h, hkk2, hk2k]
      · simp [upsert, alookup, h3, h, ih]

/-- The keys after an `upsert` are the old keys plus the inserted key. -/
theorem upsert_keys_mem (k : Line) (v : TD Nat)
    (m : List (Line × List (TD Nat))) (k2 : Line) :
    (k2 ∈ (upsert k v m).map Prod.fst) ↔ (k2 ∈ m.map Prod.fst ∨ k2 = k) := by
  induction m with
  | nil => simp [upsert, eq_comm]
  | cons p r ih =>
    obtain ⟨k3, vs⟩ := p
    by_cases h3 : k3 = k
    · subst h3
      simp [upsert]
      tauto
    · simp [upsert, h3, ih]
      tauto

/-- `upsert` preserves distinctness of the keys. -/
theorem upsert_keys_nodup (k : Line) (v : TD Nat)
    (m : List (Line × List (TD Nat))) (h : (m.map Prod.fst).Nodup) :
    ((upsert k v m).map Prod.fst).Nodup := by
  induction m with
  | nil => simp [upsert]
  | cons p r ih =>
    obtain ⟨k3, vs⟩ := p
    simp only [List.map_cons, List.nodup_cons] at h
    by_cases h3 : k3 = k
    · subst h3
      simpa [upsert] using h
    · simp only [upsert, if_neg h3, List.map_cons, List.nodup_cons]
      refine ⟨?_, ih h.2⟩
      intro hmem
      rcases (upsert_keys_mem k v r k3).mp hmem with hin | heq
      · exact h.1 hin
      · exact h3 heq

/-- Unrolled grouping loop: looking up an observer after folding the
indexed entities appends exactly that observer's indexed entries. -/
theorem foldl_alookup :
    ∀ (ts : List Ent) (n : Nat) (m : List (Line × List (TD Nat))) (o : Line),
      alookup ((List.enumFrom n ts).foldl
          (fun m p => upsert p.2.obs ⟨p.2.mjd, p.1⟩ m) m) o =
        alookup m o ++
          ((List.enumFrom n ts).filter (fun p => p.2.obs = o)).map
            (fun p => ⟨p.2.mjd, p.1⟩) := by
  intro ts
  induction ts with
  | nil => intro n m o; simp
  | cons e ts ih =>
    intro n m o
    simp only [List.enumFrom_cons, List.foldl_cons, List.filter_cons]
    rw [ih]
    rw [alookup_upsert]
    by_cases h : e.obs = o
    · simp [h]
    · simp [h]

/-- Looking an observer up in the grouping map gives its `groupOf` list. -/
theorem groupObs_alookup (ts : List Ent) (o : Line) :
    alookup (groupObs ts) o = groupOf ts o := by
  have := foldl_alookup ts 0 [] o
  simpa [groupObs, groupOf, List.enum, alookup] using this

/-- The grouping fold keeps the keys distinct. -/
theorem foldl_keys_nodup :
    ∀ (l : List (Nat × Ent)) (m : List (Line × List (TD Nat))),
      (m.map Prod.fst).Nodup →
      ((l.foldl (fun m p => upsert p.2.obs ⟨p.2.mjd, p.1⟩ m) m).map Prod.fst).Nodup := by
  intro l
  induction l with
  | nil => intro m h; simpa using h
  | cons p l ih =>
    intro m h
    simp only [List.foldl_cons]
    exact ih _ (upsert_keys_nodup _ _ _ h)

/-- The grouping map has distinct keys (Go map keys are unique). -/
theorem groupObs_keys_nodup (ts : List Ent) :
    ((groupObs ts).map Prod.fst).Nodup :=
  foldl_keys_nodup ts.enum [] (by simp)

/-- The keys after the grouping fold are the initial keys plus the
observers of the folded entities. -/
theorem foldl_keys_mem :
    ∀ (l : List (Nat × Ent)) (m : List (Line × List (TD Nat))) (o : Line),
      (o ∈ (l.foldl (fun m p => upsert p.2.obs ⟨p.2.mjd, p.1⟩ m) m).map Prod.fst) ↔
        (o ∈ m.map Prod.fst ∨ o ∈ l.map (fun p => p.2.obs)) := by
  intro l
  induction l with
  | nil => intro m o; simp
  | cons p l ih =>
    intro m o
    simp only [List.foldl_cons, List.map_cons, List.mem_cons]
    rw [ih, upsert_keys_mem]
    tauto

/-- The grouping map's keys are exactly the observers occurring in the
input. -/
theorem groupObs_keys_mem (ts : List Ent) (o : Line) :
    o ∈ (groupObs ts).map Prod.fst ↔ o ∈ ts.map (·.obs) := by
  have := foldl_keys_mem ts.enum [] o
  simp only [groupObs] at *
  rw [this]
  have h2 : ts.enum.map (fun p => p.2.obs) = ts.map (·.obs) := by
    rw [show (fun (p : Nat × Ent) => p.2.obs) = ((fun e => e.obs) ∘ Prod.snd) from rfl,
      ← List.map_map, List.enum_map_snd]
  simp [h2]

/-- With distinct keys, lookup of a present entry returns its group. -/
theorem alookup_of_mem (m : List (Line × List (TD Nat))) (o : Line)
    (g : List (TD Nat)) (hnd : (m.map Prod.fst).Nodup) (hm : (o, g) ∈ m) :
    alookup m o = g := by
  induction m with
  | nil => simp at hm
  | cons p r ih =>
    obtain ⟨k, vs⟩ := p
    simp only [List.map_cons, List.nodup_cons] at hnd
    rcases List.mem_cons.mp hm with heq | hin
    · cases heq
      simp [alookup]
    · have hko : ¬k = o := by
        intro h
        subst h
        exact hnd.1 (by simpa using List.mem_map_of_mem Prod.fst hin)
      simp only [alookup, if_neg hko]
      exact ih hnd.2 hin

/-- Generalised over the enumeration start: the times of an observer's
group are the times of that observer's entities, in input order. -/
theorem groupOf_from_mjd :
    ∀ (ts : List Ent) (n : Nat) (o : Line),
      ((((List.enumFrom n ts).filter (fun p => p.2.obs = o)).map
          (fun p => (⟨p.2.mjd, p.1⟩ : TD Nat))).map (·.mjd)) =
        (ts.filter (fun e => e.obs = o)).map (·.mjd) := by
  intro ts
  induction ts with
  | nil => intro n o; simp
  | cons e ts ih =>
    intro n o
    simp only [List.enumFrom_cons, List.filter_cons]
    by_cases h : e.obs = o <;> simp [h, ih n.succ o]

/-- The times of an observer's group are the times of the input entities
with that observer, in input order. -/
theorem groupOf_map_mjd (ts : List Ent) (o : Line) :
    (groupOf ts o).map (·.mjd) = (ts.filter (fun e => e.obs = o)).map (·.mjd) := by
  simpa [groupOf, List.enum] using groupOf_from_mjd ts 0 o

/-- Every entry of an observer's group points back (through the input
list) at the entity it was built from. -/
theorem groupOf_deref (ts : List Ent) (o : Line) :
    ∀ p ∈ groupOf ts o, ts.get? p.pay = some ⟨p.mjd, o⟩ := by
  intro p hp
  simp only [groupOf, List.mem_map] at hp
  obtain ⟨q, hq, rfl⟩ := hp
  have hqo : q.2.obs = o := by simpa using List.of_mem_filter hq
  have hqe : q ∈ ts.enum := List.mem_of_mem_filter hq
  have hget : ts[q.1]? = some q.2 := List.mem_enum_iff_getElem?.mp hqe
  rw [List.get?_eq_getElem?, hget, ← hqo]

/-- `getLastD` commutes with `map` when the default is mapped too. -/
theorem getLastD_map {α β : Type} (g : α → β) (x : α) :
    ∀ l : List α, (l.map g).getLastD (g x) = g (l.getLastD x)
  | [] => rfl
  | y :: ys => by
    simp only [List.map_cons, List.getLastD_cons]
    exact getLastD_map g y ys

/-- `headD` commutes with `map` when the default is mapped too. -/
theorem headD_map {α β : Type} (g : α → β) (x : α) (l : List α) :
    (l.map g).headD (g x) = g (l.headD x) := by
  cases l <;> rfl

/-- Relabelling payloads does not change the times of a `td` list. -/
theorem map_mjd_tdMap {α β : Type} (f : α → β) (l : List (TD α)) :
    (l.map (tdMap f)).map (fun t => t.mjd) = l.map (fun t => t.mjd) := by
  rw [List.map_map]
  exact List.map_congr_left (fun a _ => rfl)

/-- `appendTl`'s tracklet construction commutes with payload relabelling. -/
theorem mkTk_map {α β : Type} (f : α → β) (l : List (TD α)) :
    mkTk (l.map (tdMap f)) = tkMap f (mkTk l) := by
  have h2 : (l.map (tdMap f)).map (fun t : TD β => t.pay) = (l.map (fun t => t.pay)).map f := by
    rw [List.map_map, List.map_map]
    exact List.map_congr_left (fun a _ => rfl)
  unfold mkTk tkMap
  rw [map_mjd_tdMap, h2, List.length_map]

/-- `reduce` splits on times only, so it commutes with any relabelling of
the payloads (strong induction on the list length, following the nine
branches of the source). -/
theorem reduce_map_aux {α β : Type} (f : α → β) :
    ∀ (n : Nat) (l : List (TD α)), l.length ≤ n →
      reduce (l.map (tdMap f)) = (reduce l).map (tkMap f) := by
  intro n
  induction n with
  | zero =>
    intro l hl
    have h0 : l = [] := List.eq_nil_of_length_eq_zero (Nat.le_zero.mp hl)
    subst h0
    simp [reduce]
  | succ n ih =>
    intro l hl
    rcases l with _ | ⟨x, xs⟩
    · simp [reduce]
    · simp only [List.length_cons] at hl
      simp only [List.map_cons]
      simp only [reduce]
      simp only [← List.map_cons]
      have hgl : ∀ (l : List (TD α)),
          ((l.map (tdMap f)).getLastD (tdMap f x)).mjd = (l.getLastD x).mjd :=
        fun l => by rw [getLastD_map]; rfl
      have hhd : ∀ (l : List (TD α)),
          ((l.map (tdMap f)).headD (tdMap f x)).mjd = (l.headD x).mjd :=
        fun l => by rw [headD_map]; rfl
      have hmx : (tdMap f x).mjd = x.mjd := rfl
      simp only [map_mjd_tdMap, List.length_map, ← List.map_take, ← List.map_drop,
        hgl, hhd, hmx]
      by_cases h1 : ((x :: xs).getLastD x).mjd - x.mjd < 42/1000
      · simp only [dif_pos h1]; simp only [mkTk_map]; simp only [List.map_cons, List.map_nil]
      · simp only [dif_neg h1]
        by_cases h2 : (x :: xs).length ≤ 5 ∧ ((x :: xs).getLastD x).mjd - x.mjd < 125/1000
        · simp only [if_pos h2]; simp only [mkTk_map]; simp only [List.map_cons, List.map_nil]
        · simp only [if_neg h2]
          by_cases h3 : (x :: xs).length = 2
          · simp only [dif_pos h3]
            by_cases h4 : ((x :: xs).getLastD x).mjd - x.mjd < 1/2
            · simp only [if_pos h4]; simp only [mkTk_map]; simp only [List.map_cons, List.map_nil]
            · simp only [if_neg h4]; simp only [mkTk_map]; simp only [List.map_cons, List.map_nil]
          · simp only [dif_neg h3]
            have hlen2 : 2 ≤ (x :: xs).length := by
              rcases xs with _ | ⟨y, ys⟩
              · exact absurd (by norm_num [List.getLastD_cons, List.getLastD_nil]) h1
              · simp only [List.length_cons]; omega
            simp only [List.length_cons] at hlen2 h3
            set s := largestGapSplit ((x :: xs).map (fun t => t.mjd)) with hs
            by_cases h4 : 3 ≤ ((x :: xs).take s).length ∧ 3 ≤ ((x :: xs).drop s).length
            · simp only [if_pos h4]
              have h4' := h4
              simp only [List.length_take, List.length_drop, List.length_cons] at h4'
              rw [List.map_append,
                ih _ (by simp only [List.length_take, List.length_cons]; omega),
                ih _ (by simp only [List.length_drop, List.length_cons]; omega)]
            · simp only [if_neg h4]
              by_cases h5 : ((x :: xs).take s).length = 2 ∧ 2 ≤ ((x :: xs).drop s).length ∧
                  (((x :: xs).take s).getLastD x).mjd - (((x :: xs).take s).headD x).mjd < 1/2
              · simp only [if_pos h5]; simp only [mkTk_map]; simp only [List.map_cons]
                have h5' := h5.2.1
                have h5a := h5.1
                simp only [List.length_drop, List.length_cons] at h5'
                simp only [List.length_take, List.length_cons] at h5a
                rw [ih _ (by simp only [List.length_drop, List.length_cons]; omega)]
              · simp only [if_neg h5]
                by_cases h6 : ((x :: xs).drop s).length = 2 ∧ 2 ≤ ((x :: xs).take s).length ∧
                    (((x :: xs).drop s).getLastD x).mjd - (((x :: xs).drop s).headD x).mjd < 1/2
                · simp only [if_pos h6]; simp only [mkTk_map]; simp only [List.map_append, List.map_cons, List.map_nil]
                  have h6' := h6.1
                  have h6'' := h6.2.1
                  simp only [List.length_drop, List.length_cons] at h6'
                  simp only [List.length_take, List.length_cons] at h6''
                  rw [ih _ (by simp only [List.length_take, List.length_cons]; omega)]
                · simp only [if_neg h6]
                  by_cases h7 : (x :: xs).length = 3 ∧ ((x :: xs).getLastD x).mjd - x.mjd < 1/2
                  · simp only [if_pos h7]; simp only [mkTk_map]; simp only [List.map_cons, List.map_nil]
                  · simp only [if_neg h7]
                    by_cases h8 : ((x :: xs).getLastD x).mjd - x.mjd < 1/4
                    · simp only [if_pos h8]; simp only [mkTk_map]; simp only [List.map_cons, List.map_nil]
                    · simp only [if_neg h8, List.map_append]
                      have hb := largestGapSplit_bounds ((x :: xs).map (fun t => t.mjd))
                        (by simp only [List.length_map, List.length_cons]; omega)
                      rw [← hs] at hb
                      simp only [List.length_map, List.length_cons] at hb
                      rw [ih _ (by simp only [List.length_take, List.length_cons]; omega),
                        ih _ (by simp only [List.length_drop, List.length_cons]; omega)]

/-- `reduce` commutes with payload relabelling. -/
theorem reduce_map {α β : Type} (f : α → β) (l : List (TD α)) :
    reduce (l.map (tdMap f)) = (reduce l).map (tkMap f) :=
  reduce_map_aux f l.length l (le_refl _)

/-- The sorted time list of an observer's group is invariant under
permutation of the input: both sides sort the same multiset of times. -/
theorem sortByMjd_mjd_eq (ts ts' : List Ent) (hperm : ts.Perm ts') (o : Line) :
    (sortByMjd (groupOf ts o)).map (fun t => t.mjd) =
      (sortByMjd (groupOf ts' o)).map (fun t => t.mjd) := by
  haveI hT : IsTotal (TD Nat) (fun a b => a.mjd ≤ b.mjd) := ⟨fun a b => le_total a.mjd b.mjd⟩
  haveI hR : IsTrans (TD Nat) (fun a b => a.mjd ≤ b.mjd) := ⟨fun a b c h1 h2 => le_trans h1 h2⟩
  have hp : ((sortByMjd (groupOf ts o)).map (fun t => t.mjd)).Perm
      ((sortByMjd (groupOf ts' o)).map (fun t => t.mjd)) := by
    refine ((List.perm_insertionSort _ _).map _).trans
      (.trans ?_ (((List.perm_insertionSort _ _).map _).symm))
    rw [groupOf_map_mjd, groupOf_map_mjd]
    exact (hperm.filter _).map _
  have hsort : ∀ us : List Ent,
      ((sortByMjd (groupOf us o)).map (fun t => t.mjd)).Sorted (· ≤ ·) := by
    intro us
    have := List.sorted_insertionSort (fun a b : TD Nat => a.mjd ≤ b.mjd) (groupOf us o)
    exact List.Pairwise.map _ (fun a b h => h) this
  exact List.eq_of_perm_of_sorted hp (hsort ts) (hsort ts')

/-- Dereferencing survives the per-group sort. -/
theorem sortByMjd_deref (ts : List Ent) (o : Line) :
    ∀ p ∈ sortByMjd (groupOf ts o), ts.get? p.pay = some ⟨p.mjd, o⟩ := by
  intro p hp
  exact groupOf_deref ts o p ((List.perm_insertionSort _ _).mem_iff.mp hp)

/-- The sorted group of an observer, with each payload dereferenced
through its own input list, is invariant under permutation of the input:
every entry dereferences to the entity with its time and observer. -/
theorem group_derefed_eq (ts ts' : List Ent) (hperm : ts.Perm ts') (o : Line) :
    (sortByMjd (groupOf ts o)).map (tdMap (fun i => ts.get? i)) =
      (sortByMjd (groupOf ts' o)).map (tdMap (fun i => ts'.get? i)) := by
  have e : ∀ us : List Ent, (sortByMjd (groupOf us o)).map (tdMap (fun i => us.get? i)) =
      ((sortByMjd (groupOf us o)).map (fun t => t.mjd)).map
        (fun m => (⟨m, some ⟨m, o⟩⟩ : TD (Option Ent))) := by
    intro us
    rw [List.map_map]
    refine List.map_congr_left (fun p hp => ?_)
    simp only [Function.comp, tdMap, sortByMjd_deref us o p hp]
  rw [e ts, e ts', sortByMjd_mjd_eq ts ts' hperm o]

/-- One observer's dereferenced tracklets are invariant under permutation
of the input. -/
theorem group_tracklets_eq (ts ts' : List Ent) (hperm : ts.Perm ts') (o : Line) :
    (reduce (sortByMjd (groupOf ts o))).map (derefTk ts) =
      (reduce (sortByMjd (groupOf ts' o))).map (derefTk ts') := by
  have e : ∀ (us : List Ent) (l : List (TK Nat)),
      l.map (derefTk us) = (l.map (tkMap (fun i => us.get? i))).map
        (fun k => (k.mean, k.index)) := by
    intro us l
    rw [List.map_map]
    exact List.map_congr_left (fun k _ => rfl)
  rw [e ts, e ts', ← reduce_map, ← reduce_map, group_derefed_eq ts ts' hperm o]

/-- An append-accumulating fold is a flatten. -/
theorem foldl_append_flatten {γ δ : Type} (f : γ → List δ) (l : List γ) :
    ∀ init : List δ, l.foldl (fun acc g => acc ++ f g) init = init ++ (l.map f).flatten := by
  induction l with
  | nil => intro init; simp
  | cons g gs ih => intro init; simp [ih, List.flatten_cons, List.append_assoc]

/-- Every entry of the grouping map holds its key's group. -/
theorem groupObs_snd (ts : List Ent) :
    ∀ g ∈ groupObs ts, g.2 = groupOf ts g.1 := by
  intro g hg
  have h1 : alookup (groupObs ts) g.1 = g.2 :=
    alookup_of_mem (groupObs ts) g.1 g.2 (groupObs_keys_nodup ts) hg
  rw [← h1, groupObs_alookup]

/-- The pre-sort tracklet list, dereferenced, is the concatenation of the
per-observer dereferenced tracklets over the map's key order. -/
theorem preTl_derefed_flatten (us : List Ent) :
    (preTl us).map (derefTk us) =
      (((groupObs us).map Prod.fst).map
        (fun o => (reduce (sortByMjd (groupOf us o))).map (derefTk us))).flatten := by
  have h1 : preTl us = ((groupObs us).map (fun g => reduce (sortByMjd g.2))).flatten := by
    rw [preTl, foldl_append_flatten]
    rfl
  rw [h1, List.map_flatten, List.map_map, List.map_map]
  congr 1
  refine List.map_congr_left (fun g hg => ?_)
  simp only [Function.comp]
  rw [groupObs_snd us g hg]

/-- Permuting the input permutes the grouping map's key list (modelled
Go map iteration order is first occurrence, so only the order varies). -/
theorem groupObs_keys_perm (ts ts' : List Ent) (hperm : ts.Perm ts') :
    ((groupObs ts').map Prod.fst).Perm ((groupObs ts).map Prod.fst) := by
  rw [List.perm_ext_iff_of_nodup (groupObs_keys_nodup ts') (groupObs_keys_nodup ts)]
  intro o
  rw [groupObs_keys_mem, groupObs_keys_mem]
  exact (hperm.map (fun e => e.obs)).mem_iff.symm

/-- The pre-sort dereferenced tracklet lists of two input permutations
are permutations of each other. -/
theorem preTl_derefed_perm (ts ts' : List Ent) (hperm : ts.Perm ts') :
    ((preTl ts').map (derefTk ts')).Perm ((preTl ts).map (derefTk ts)) := by
  rw [preTl_derefed_flatten ts, preTl_derefed_flatten ts']
  have hco : (((groupObs ts').map Prod.fst).map
        (fun o => (reduce (sortByMjd (groupOf ts' o))).map (derefTk ts'))) =
      (((groupObs ts').map Prod.fst).map
        (fun o => (reduce (sortByMjd (groupOf ts o))).map (derefTk ts))) :=
    List.map_congr_left (fun o _ => (group_tracklets_eq ts ts' hperm o).symm)
  rw [hco]
  exact ((groupObs_keys_perm ts ts' hperm).map _).flatten

/-- C9 (amended): if no two tracklets have the same mean time, then
`FindTrackletsIndex` is permutation-invariant up to dereferencing: for any
permutation `ts'` of the input `ts`, the sorted tracklet lists agree once
each member index is dereferenced through its own input list (same mean
times, same member entities, same order).  With tied mean times the claim
fails (see the counterexample): the unstable final sort may order tied
tracklets either way. -/
theorem c9_permutation_invariant (ts ts' : List Ent) (hperm : ts.Perm ts')
    (hmeans : ((fullFTI ts).map (fun k => k.mean)).Nodup) :
    derefFTI ts' = derefFTI ts := by
  haveI hT : IsTotal (TK Nat) (fun a b => a.mean ≤ b.mean) := ⟨fun a b => le_total a.mean b.mean⟩
  haveI hR : IsTrans (TK Nat) (fun a b => a.mean ≤ b.mean) := ⟨fun a b c h1 h2 => le_trans h1 h2⟩
  have hMperm : (derefFTI ts').Perm (derefFTI ts) := by
    show ((fullFTI ts').map (derefTk ts')).Perm ((fullFTI ts).map (derefTk ts))
    refine ((List.perm_insertionSort _ _).map _).trans
      (.trans (preTl_derefed_perm ts ts' hperm) (((List.perm_insertionSort _ _).map _).symm))
  have hs : ∀ us : List Ent, (derefFTI us).Pairwise (fun a b => a.1 ≤ b.1) := by
    intro us
    have h := List.sorted_insertionSort (fun a b : TK Nat => a.mean ≤ b.mean) (preTl us)
    exact List.Pairwise.map _ (fun a b hab => hab) h
  have hnd : ((derefFTI ts).map Prod.fst).Nodup := by
    have e : (derefFTI ts).map Prod.fst = (fullFTI ts).map (fun k => k.mean) := by
      rw [derefFTI, List.map_map]
      exact List.map_congr_left (fun k _ => rfl)
    rw [e]; exact hmeans
  have hnd' : ((derefFTI ts').map Prod.fst).Nodup :=
    (hMperm.map Prod.fst).nodup_iff.mpr hnd
  have hstrict : ∀ L : List (ℚ × List (Option Ent)),
      L.Pairwise (fun a b => a.1 ≤ b.1) → (L.map Prod.fst).Nodup →
      L.Pairwise (fun a b => a.1 < b.1 ∨ a = b) := by
    intro L hle hndL
    have hne : L.Pairwise (fun a b => a.1 ≠ b.1) := by
      simpa [List.Nodup, List.pairwise_map] using hndL
    exact (hle.and hne).imp (fun hab => Or.inl (lt_of_le_of_ne hab.1 hab.2))
  haveI : IsAntisymm (ℚ × List (Option Ent)) (fun a b => a.1 < b.1 ∨ a = b) := by
    constructor
    rintro a b (h1 | rfl) (h2 | h2)
    · exact absurd h2 (lt_asymm h1)
    · exact h2.symm
    · rfl
    · rfl
  exact List.eq_of_perm_of_sorted hMperm (hstrict _ (hs ts') hnd') (hstrict _ (hs ts) hnd)

/-- Witness for `c9_permutation_invariant` on a two-entity swap with
distinct mean times. -/
theorem c9_permutation_invariant_witness :
    ((([⟨1, ['B']⟩, ⟨0, ['A']⟩] : List Ent).Perm [⟨0, ['A']⟩, ⟨1, ['B']⟩]) ∧
      ((fullFTI [⟨1, ['B']⟩, ⟨0, ['A']⟩]).map (fun k => k.mean)).Nodup) ∧
    derefFTI [⟨0, ['A']⟩, ⟨1, ['B']⟩] = derefFTI [⟨1, ['B']⟩, ⟨0, ['A']⟩] := by
  have hperm : ([⟨1, ['B']⟩, ⟨0, ['A']⟩] : List Ent).Perm [⟨0, ['A']⟩, ⟨1, ['B']⟩] :=
    List.Perm.swap (⟨0, ['A']⟩ : Ent) (⟨1, ['B']⟩ : Ent) []
  have hBA : ¬(('B' : Char) = 'A') := by decide
  have hfull : fullFTI [(⟨1, ['B']⟩ : Ent), ⟨0, ['A']⟩] = [⟨[1], 0⟩, ⟨[0], 1⟩] := by
    norm_num [fullFTI, preTl, groupObs, List.enum, upsert, sortByMjd, sortByMean,
      List.insertionSort, List.orderedInsert, reduce, mkTk, hBA]
  have hmeans : ((fullFTI [(⟨1, ['B']⟩ : Ent), ⟨0, ['A']⟩]).map (fun k => k.mean)).Nodup := by
    rw [hfull]
    norm_num [List.nodup_cons]
  exact ⟨⟨hperm, hmeans⟩, c9_permutation_invariant _ _ hperm hmeans⟩

end Mpcformat
